import Mathlib

/-!
Verification of the AFML focus-management arbitration engine
(`src/AFML/src/FocusManager.cpp`), shallowly embedded in Lean.

Model overview:
* `FocusState`, `Channel` — the per-channel data (the `Channel` class is not
  part of the provided sources, so its small methods are modelled from the
  specification, §4.1 and §3).
* `FMState` — the arbitrator's state: the registry (`channels`), the active
  set (`activeNames`), the pending activity-record batch (`activityUpdates`)
  and, as observable logs, the global observer notifications and the batches
  delivered to the activity tracker.
* each `FocusManager` member function becomes a Lean function on `FMState`;
  queued work is represented by `Task` values produced by the public
  operations and executed by `runTask`.

Observers are identified by natural numbers (the C++ code only ever compares
observer pointers for identity and checks them against null).
-/

namespace AFML

/-- Focus states of a channel: NONE (unowned), BACKGROUND, FOREGROUND. -/
inductive FocusState where
  | NONE
  | BACKGROUND
  | FOREGROUND
deriving DecidableEq, Repr

/-- A channel: named, prioritized resource with focus state and owner
metadata.  `Modelled from the spec:` the `Channel` class (§3 data model) is
not among the provided sources; fields follow the spec's Channel record
(name, priority, focusState, ownerInterfaceName, attachedObserver). -/
structure Channel where
  name : String
  priority : Nat
  focusState : FocusState
  interface : String
  observer : Option Nat
deriving DecidableEq, Repr

/-- An activity record: the data of `Channel::getState()` pushed into the
activity batch (channel name, focus state, owner interface name). -/
structure ChannelState where
  name : String
  focusState : FocusState
  interface : String
deriving DecidableEq, Repr

/-- `Modelled from the spec:` `Channel::setFocus` (§4.1): no-op returning
`false` when the new state equals the current one; otherwise updates the
state and returns `true`.  Per §3's lifecycle ("attachedObserver ... reset to
unowned on release or stop") and §4.1's `hasObserver` ("already-vacated"),
the attached observer is cleared exactly when the state becomes NONE. -/
def Channel.setFocus (c : Channel) (fs : FocusState) : Channel × Bool :=
  if c.focusState = fs then (c, false)
  else ({ c with
          focusState := fs,
          observer := if fs = FocusState.NONE then none else c.observer }, true)

/-- `Modelled from the spec:` `Channel::getState` — the activity record
captured at a focus change. -/
def Channel.getState (c : Channel) : ChannelState :=
  ⟨c.name, c.focusState, c.interface⟩

/-- `Modelled from the spec:` `Channel::doesObserverOwnChannel` (§4.1):
identity comparison against the attached observer. -/
def Channel.doesObserverOwnChannel (c : Channel) (obs : Nat) : Prop :=
  c.observer = some obs

instance (c : Channel) (obs : Nat) : Decidable (c.doesObserverOwnChannel obs) := by
  unfold Channel.doesObserverOwnChannel; infer_instance

/-- `Modelled from the spec:` `Channel::hasObserver` (§4.1). -/
def Channel.hasObserver (c : Channel) : Prop :=
  c.observer ≠ none

instance (c : Channel) : Decidable c.hasObserver := by
  unfold Channel.hasObserver; infer_instance

/-- The arbitrator's state.  `channels` is the registry (`m_allChannels`,
with each channel's current mutable state), `activeNames` the names of the
members of `m_activeChannels`, `activityUpdates` the pending
`m_activityUpdates` batch.  `notifications` logs every global-observer
`onFocusChanged` callback and `trackerBatches` every batch handed to
`notifyOfActivityUpdates`; `hasTracker` records whether an activity tracker
was supplied at construction. -/
structure FMState where
  channels : List Channel
  activeNames : List String
  activityUpdates : List ChannelState
  notifications : List (String × FocusState)
  trackerBatches : List (List ChannelState)
  hasTracker : Bool
deriving DecidableEq, Repr

/-- Registry lookup by name (`FocusManager::getChannel` over `m_allChannels`). -/
def findChannel (chs : List Channel) (n : String) : Option Channel :=
  chs.find? (fun c => c.name = n)

/-- `FocusManager::getChannel`. -/
def getChannel (s : FMState) (n : String) : Option Channel :=
  findChannel s.channels n

/-- The members of `m_activeChannels`: the registry channels whose name is in
the active set. -/
def activeChans (chs : List Channel) (act : List String) : List Channel :=
  chs.filter (fun c => c.name ∈ act)

/-- Minimum-priority element of a channel list (the first element of the
priority-ordered `std::set`); ties keep the earlier element (unreachable at
runtime: registry priorities are pairwise distinct). -/
def minPrio : List Channel → Option Channel
  | [] => none
  | c :: rest =>
    match minPrio rest with
    | none => some c
    | some b => if b.priority < c.priority then some b else some c

/-- `FocusManager::getHighestPriorityActiveChannelLocked`:
`*m_activeChannels.begin()`, i.e. the active channel with the numerically
smallest priority, or none when the active set is empty. -/
def getHighestPriorityActiveChannel (s : FMState) : Option Channel :=
  minPrio (activeChans s.channels s.activeNames)

/-- `FocusManager::isChannelForegroundedLocked`: pointer comparison of the
highest-priority active channel with the given channel (names identify
channels: registry names are unique). -/
def isChannelForegrounded (s : FMState) (n : String) : Prop :=
  (getHighestPriorityActiveChannel s).map Channel.name = some n

instance (s : FMState) (n : String) : Decidable (isChannelForegrounded s n) := by
  unfold isChannelForegrounded; infer_instance

/-- `FocusManager::setChannelFocus`: `channel->setFocus(focus)`; when it
reports a change, broadcast to the global observers and push the channel's
state onto the activity batch. -/
def setChannelFocus (s : FMState) (n : String) (fs : FocusState) : FMState :=
  match findChannel s.channels n with
  | none => s
  | some c =>
    let r := c.setFocus fs
    if r.2 then
      { s with
        channels := s.channels.map (fun d => if d.name = n then (d.setFocus fs).1 else d),
        notifications := s.notifications ++ [(n, fs)],
        activityUpdates := s.activityUpdates ++ [r.1.getState] }
    else s

/-- `channelToAcquire->setInterface(interface)`. -/
def setChannelInterface (s : FMState) (n : String) (iface : String) : FMState :=
  { s with
    channels := s.channels.map (fun d =>
      if d.name = n then { d with interface := iface } else d) }

/-- `channelToAcquire->setObserver(channelObserver)`. -/
def setChannelObserver (s : FMState) (n : String) (obs : Option Nat) : FMState :=
  { s with
    channels := s.channels.map (fun d =>
      if d.name = n then { d with observer := obs } else d) }

/-- `m_activeChannels.insert(channel)`: a set insert, a no-op when the
channel is already present. -/
def insertActive (s : FMState) (n : String) : FMState :=
  if n ∈ s.activeNames then s else { s with activeNames := s.activeNames ++ [n] }

/-- `m_activeChannels.erase(channel)`. -/
def eraseActive (s : FMState) (n : String) : FMState :=
  { s with activeNames := s.activeNames.filter (fun m => m ≠ n) }

/-- `FocusManager::notifyActivityTracker`: hand the pending batch to the
tracker when one is configured, then clear the batch. -/
def notifyActivityTracker (s : FMState) : FMState :=
  { s with
    trackerBatches :=
      if s.hasTracker then s.trackerBatches ++ [s.activityUpdates] else s.trackerBatches,
    activityUpdates := [] }

/-- `FocusManager::foregroundHighestPriorityActiveChannel`. -/
def foregroundHighestPriorityActiveChannel (s : FMState) : FMState :=
  match getHighestPriorityActiveChannel s with
  | none => s
  | some c => setChannelFocus s c.name FocusState.FOREGROUND

/-- The priority of the named registry channel (the default is dead code:
every helper receives a channel validated to exist). -/
def priorityOf (s : FMState) (n : String) : Nat :=
  match findChannel s.channels n with
  | some c => c.priority
  | none => 0

/-- `FocusManager::acquireChannelHelper` (the queued acquire task). -/
def acquireChannelHelper (s : FMState) (n : String) (obs : Nat) (iface : String) :
    FMState :=
  let s1 := setChannelFocus s n FocusState.NONE
  let fg := getHighestPriorityActiveChannel s1
  let s2 := insertActive (setChannelInterface s1 n iface) n
  let s3 := setChannelObserver s2 n (some obs)
  let s4 :=
    match fg with
    | none => setChannelFocus s3 n FocusState.FOREGROUND
    | some f =>
      if f.name = n then setChannelFocus s3 n FocusState.FOREGROUND
      else if priorityOf s n < f.priority then
        setChannelFocus (setChannelFocus s3 f.name FocusState.BACKGROUND) n
          FocusState.FOREGROUND
      else setChannelFocus s3 n FocusState.BACKGROUND
  notifyActivityTracker s4

/-- `FocusManager::releaseChannelHelper` (the queued release task); the
boolean is the value the promise is resolved with. -/
def releaseChannelHelper (s : FMState) (n : String) (obs : Nat) : FMState × Bool :=
  match findChannel s.channels n with
  | none => (s, false)
  | some c =>
    if c.doesObserverOwnChannel obs then
      let wasForegrounded := isChannelForegrounded s n
      let s1 := eraseActive s n
      let s2 := setChannelFocus s1 n FocusState.NONE
      let s3 := if wasForegrounded then foregroundHighestPriorityActiveChannel s2 else s2
      (notifyActivityTracker s3, true)
    else (s, false)

/-- `FocusManager::stopForegroundActivityHelper` (the queued urgent task);
`iface` is the owner interface name snapshotted at submission time. -/
def stopForegroundActivityHelper (s : FMState) (n : String) (iface : String) :
    FMState :=
  match findChannel s.channels n with
  | none => s
  | some c =>
    if iface ≠ c.interface then s
    else if ¬c.hasObserver then s
    else
      let s1 := eraseActive (setChannelFocus s n FocusState.NONE) n
      notifyActivityTracker (foregroundHighestPriorityActiveChannel s1)

/-- One step of `stopAllActivitiesHelper`'s first loop: when the snapshotted
owner interface still matches, erase the channel from the active set and mark
it for clearing. -/
def stopAllStep (acc : FMState × List String) (p : String × String) :
    FMState × List String :=
  match findChannel acc.1.channels p.1 with
  | none => acc
  | some c =>
    if c.interface = p.2 then (eraseActive acc.1 p.1, acc.2 ++ [p.1])
    else acc

/-- `FocusManager::stopAllActivitiesHelper` (the queued urgent task);
`pairs` is the snapshotted (channel name, owner interface) map. -/
def stopAllActivitiesHelper (s : FMState) (pairs : List (String × String)) :
    FMState :=
  let r := pairs.foldl stopAllStep (s, [])
  let s2 := r.2.foldl (fun st n => setChannelFocus st n FocusState.NONE) r.1
  notifyActivityTracker (foregroundHighestPriorityActiveChannel s2)

/-- A task handed to the serialized arbitration queue. -/
inductive Task where
  | acquire (n : String) (obs : Nat) (iface : String)
  | release (n : String) (obs : Nat)
  | stopForeground (n : String) (iface : String)
  | stopAll (pairs : List (String × String))
deriving DecidableEq, Repr

/-- Execute a queued task (the work the single executor thread performs). -/
def runTask (s : FMState) : Task → FMState
  | Task.acquire n obs iface => acquireChannelHelper s n obs iface
  | Task.release n obs => (releaseChannelHelper s n obs).1
  | Task.stopForeground n iface => stopForegroundActivityHelper s n iface
  | Task.stopAll pairs => stopAllActivitiesHelper s pairs

/-- `FocusManager::acquireChannel` (synchronous part): returns the accepted
flag and the task submitted to the executor, if any. -/
def acquireChannel (s : FMState) (n : String) (obs : Nat) (iface : String) :
    Bool × Option Task :=
  match findChannel s.channels n with
  | none => (false, none)
  | some _ => (true, some (Task.acquire n obs iface))

/-- `FocusManager::releaseChannel` (synchronous part): returns the task
submitted, if any, and the already-resolved future value, if any. -/
def releaseChannel (s : FMState) (n : String) (obs : Nat) :
    Option Task × Option Bool :=
  match findChannel s.channels n with
  | none => (none, some false)
  | some _ => (some (Task.release n obs), none)

/-- `FocusManager::stopForegroundActivity` (synchronous part): snapshot the
foreground channel and its owner interface; nothing is enqueued when there is
no active channel. -/
def stopForegroundActivity (s : FMState) : Option Task :=
  match getHighestPriorityActiveChannel s with
  | none => none
  | some f => some (Task.stopForeground f.name f.interface)

/-- `FocusManager::stopAllActivities` (synchronous part): snapshot every
active channel with its owner interface; nothing is enqueued when the active
set is empty. -/
def stopAllActivities (s : FMState) : Option Task :=
  if s.activeNames.isEmpty then none
  else some (Task.stopAll ((activeChans s.channels s.activeNames).map
    (fun c => (c.name, c.interface))))

/-- A channel configuration entry handed to the constructor. -/
structure ChannelConfiguration where
  name : String
  priority : Nat
deriving DecidableEq, Repr

/-- One step of the constructor's loop: drop the entry when its name or its
priority already occurs in the registry built so far. -/
def buildStep (acc : List Channel) (cfg : ChannelConfiguration) : List Channel :=
  if acc.any (fun c => c.name = cfg.name) then acc
  else if acc.any (fun c => c.priority = cfg.priority) then acc
  else acc ++ [⟨cfg.name, cfg.priority, FocusState.NONE, "", none⟩]

/-- The `FocusManager` constructor's registry construction. -/
def buildChannels (cfgs : List ChannelConfiguration) : List Channel :=
  cfgs.foldl buildStep []

/-- `FocusManager::FocusManager`: build the registry; everything else starts
empty. -/
def mkFocusManager (cfgs : List ChannelConfiguration) (hasTracker : Bool) : FMState :=
  { channels := buildChannels cfgs
    activeNames := []
    activityUpdates := []
    notifications := []
    trackerBatches := []
    hasTracker := hasTracker }

end AFML

namespace AFML

/-! ### The arbitration invariant (spec §3, I1–I3) -/

/-- I1 (names): registry channel names are pairwise distinct. -/
def namesOk (s : FMState) : Prop := (s.channels.map Channel.name).Nodup

/-- I1 (priorities): registry channel priorities are pairwise distinct. -/
def priosOk (s : FMState) : Prop := (s.channels.map Channel.priority).Nodup

/-- I2 (half): every active name belongs to a registry channel. -/
def activeSub (s : FMState) : Prop :=
  ∀ n ∈ s.activeNames, ∃ c ∈ s.channels, c.name = n

/-- I2/I3 per channel: the focus state any single channel must hold —
FOREGROUND iff it is the highest-priority active channel, BACKGROUND for the
other active channels, NONE off the active set. -/
def focusOk (s : FMState) (c : Channel) : Prop :=
  if c.name ∈ s.activeNames then
    if isChannelForegrounded s c.name then c.focusState = FocusState.FOREGROUND
    else c.focusState = FocusState.BACKGROUND
  else c.focusState = FocusState.NONE

instance (s : FMState) (c : Channel) : Decidable (focusOk s c) := by
  unfold focusOk; infer_instance

/-- The arbitration invariant: I1–I3 of the spec. -/
def Inv (s : FMState) : Prop :=
  namesOk s ∧ priosOk s ∧ activeSub s ∧ ∀ c ∈ s.channels, focusOk s c

instance (s : FMState) : Decidable (namesOk s) := by
  unfold namesOk; infer_instance

instance (s : FMState) : Decidable (priosOk s) := by
  unfold priosOk; infer_instance

instance (s : FMState) : Decidable (activeSub s) := by
  unfold activeSub; infer_instance

instance (s : FMState) : Decidable (Inv s) := by
  unfold Inv; infer_instance

/-- Weakening of `focusOk` holding midway through an operation, before the
final `foregroundHighestPriorityActiveChannel` fix-up: the highest-priority
active channel may still be BACKGROUND. -/
def preFocusOk (s : FMState) (c : Channel) : Prop :=
  if c.name ∈ s.activeNames then
    if isChannelForegrounded s c.name then
      c.focusState = FocusState.FOREGROUND ∨ c.focusState = FocusState.BACKGROUND
    else c.focusState = FocusState.BACKGROUND
  else c.focusState = FocusState.NONE

/-- Invariant weakened for the state just before the fix-up. -/
def PreInv (s : FMState) : Prop :=
  namesOk s ∧ priosOk s ∧ activeSub s ∧ ∀ c ∈ s.channels, preFocusOk s c

/-! ### Lookup lemmas -/

theorem findChannel_name {l : List Channel} {n : String} {c : Channel}
    (h : findChannel l n = some c) : c.name = n := by
  have := List.find?_some h
  exact of_decide_eq_true this

theorem findChannel_mem {l : List Channel} {n : String} {c : Channel}
    (h : findChannel l n = some c) : c ∈ l :=
  List.mem_of_find?_eq_some h

theorem findChannel_isSome {l : List Channel} {n : String}
    (h : ∃ c ∈ l, c.name = n) : ∃ c, findChannel l n = some c := by
  have : (l.find? (fun c => c.name = n)).isSome := by
    rw [List.find?_isSome]
    obtain ⟨c, hc, hn⟩ := h
    exact ⟨c, hc, by simpa using hn⟩
  exact Option.isSome_iff_exists.mp this

theorem name_inj {l : List Channel} (hn : (l.map Channel.name).Nodup)
    {c d : Channel} (hc : c ∈ l) (hd : d ∈ l) (h : c.name = d.name) : c = d :=
  List.inj_on_of_nodup_map hn hc hd h

theorem findChannel_eq_of_mem {l : List Channel} (hn : (l.map Channel.name).Nodup)
    {c : Channel} (hc : c ∈ l) : findChannel l c.name = some c := by
  obtain ⟨d, hd⟩ := findChannel_isSome ⟨c, hc, rfl⟩
  have hdc : d = c := name_inj hn (findChannel_mem hd) hc (findChannel_name hd)
  rw [hd, hdc]

theorem findChannel_map (g : Channel → Channel) (hg : ∀ c, (g c).name = c.name)
    (l : List Channel) (n : String) :
    findChannel (l.map g) n = (findChannel l n).map g := by
  unfold findChannel
  rw [List.find?_map]
  have hp : ((fun c => decide (c.name = n)) ∘ g) = (fun c => decide (c.name = n)) := by
    funext c; simp [hg]
  rw [hp]

/-! ### Minimum-priority lemmas -/

theorem minPrio_eq_none {l : List Channel} : minPrio l = none ↔ l = [] := by
  cases l with
  | nil => simp [minPrio]
  | cons c rest =>
    simp only [minPrio]
    constructor
    · intro h
      cases hr : minPrio rest with
      | none => rw [hr] at h; simp at h
      | some b => rw [hr] at h; dsimp at h; split at h <;> simp_all
    · intro h; exact absurd h (by simp)

theorem minPrio_mem {l : List Channel} {c : Channel} (h : minPrio l = some c) :
    c ∈ l := by
  induction l generalizing c with
  | nil => simp [minPrio] at h
  | cons d rest ih =>
    simp only [minPrio] at h
    cases hr : minPrio rest with
    | none => rw [hr] at h; simp at h; simp [h]
    | some b =>
      rw [hr] at h; dsimp at h
      split at h
      · simp at h; subst h
        exact List.mem_cons_of_mem _ (ih hr)
      · simp at h; simp [h]

theorem minPrio_le {l : List Channel} {c : Channel} (h : minPrio l = some c) :
    ∀ d ∈ l, c.priority ≤ d.priority := by
  induction l generalizing c with
  | nil => simp [minPrio] at h
  | cons e rest ih =>
    simp only [minPrio] at h
    intro d hd
    cases hr : minPrio rest with
    | none =>
      rw [hr] at h; simp at h
      have : rest = [] := minPrio_eq_none.mp hr
      subst this
      simp at hd
      simp [hd, ← h]
    | some b =>
      rw [hr] at h; dsimp at h
      rcases List.mem_cons.mp hd with rfl | hdr
      · split at h
        · simp at h; subst h; omega
        · simp at h; subst h; omega
      · by_cases hbe : b.priority < e.priority
        · rw [if_pos hbe] at h; simp at h; subst h
          exact ih hr d hdr
        · rw [if_neg hbe] at h; simp at h; subst h
          have hb := ih hr d hdr
          omega

theorem minPrio_map (g : Channel → Channel) (hg : ∀ c, (g c).priority = c.priority)
    (l : List Channel) : minPrio (l.map g) = (minPrio l).map g := by
  induction l with
  | nil => simp [minPrio]
  | cons c rest ih =>
    simp only [List.map_cons, minPrio, ih]
    cases minPrio rest with
    | none => simp
    | some b => simp [hg]; split <;> simp

theorem minPrio_eq_some {l : List Channel} {c : Channel}
    (hnd : (l.map Channel.priority).Nodup) (hc : c ∈ l)
    (hmin : ∀ d ∈ l, c.priority ≤ d.priority) : minPrio l = some c := by
  induction l with
  | nil => simp at hc
  | cons e rest ih =>
    simp only [minPrio]
    rcases List.mem_cons.mp hc with rfl | hcr
    · cases hr : minPrio rest with
      | none => rfl
      | some b =>
        have hb := minPrio_mem hr
        have := hmin b (List.mem_cons_of_mem _ hb)
        dsimp
        split
        · omega
        · rfl
    · simp only [List.map_cons, List.nodup_cons] at hnd
      have hrest : minPrio rest = some c := by
        apply ih hnd.2 hcr
        intro d hd; exact hmin d (List.mem_cons_of_mem _ hd)
      rw [hrest]; dsimp
      have hce : c.priority ≤ e.priority := hmin e (List.mem_cons_self e rest)
      split
      · rfl
      · exfalso
        have hpe : c.priority = e.priority := by omega
        exact hnd.1 (List.mem_map.mpr ⟨c, hcr, hpe⟩)

end AFML

namespace AFML

/-! ### Active-set and highest-priority-channel lemmas -/

theorem mem_activeChans {chs : List Channel} {act : List String} {c : Channel} :
    c ∈ activeChans chs act ↔ c ∈ chs ∧ c.name ∈ act := by
  simp [activeChans, List.mem_filter]

theorem activeChans_prio_nodup {chs : List Channel} {act : List String}
    (hp : (chs.map Channel.priority).Nodup) :
    ((activeChans chs act).map Channel.priority).Nodup :=
  List.Nodup.sublist (List.Sublist.map _ (List.filter_sublist chs)) hp

theorem activeChans_map (g : Channel → Channel) (hg : ∀ c, (g c).name = c.name)
    (chs : List Channel) (act : List String) :
    activeChans (chs.map g) act = (activeChans chs act).map g := by
  unfold activeChans
  rw [List.filter_map]
  have hp : ((fun c => decide (c.name ∈ act)) ∘ g) = (fun c => decide (c.name ∈ act)) := by
    funext c; simp [hg]
  rw [hp]

theorem getHighest_mem {s : FMState} {c : Channel}
    (h : getHighestPriorityActiveChannel s = some c) :
    c ∈ s.channels ∧ c.name ∈ s.activeNames :=
  mem_activeChans.mp (minPrio_mem h)

theorem getHighest_le {s : FMState} {c : Channel}
    (h : getHighestPriorityActiveChannel s = some c) :
    ∀ d ∈ s.channels, d.name ∈ s.activeNames → c.priority ≤ d.priority :=
  fun d hd ha => minPrio_le h d (mem_activeChans.mpr ⟨hd, ha⟩)

theorem getHighest_none {s : FMState}
    (h : getHighestPriorityActiveChannel s = none) :
    ∀ d ∈ s.channels, d.name ∉ s.activeNames := by
  intro d hd ha
  have hnil := minPrio_eq_none.mp h
  have : d ∈ activeChans s.channels s.activeNames := mem_activeChans.mpr ⟨hd, ha⟩
  rw [hnil] at this
  simp at this

theorem getHighest_isSome {s : FMState} (hsub : activeSub s)
    (hne : s.activeNames ≠ []) : ∃ c, getHighestPriorityActiveChannel s = some c := by
  have hex : ∃ n, n ∈ s.activeNames := by
    cases ha : s.activeNames with
    | nil => exact absurd ha hne
    | cons m rest => exact ⟨m, by simp [ha]⟩
  obtain ⟨n, hn⟩ := hex
  obtain ⟨c, hc, hcn⟩ := hsub n hn
  have hmem : c ∈ activeChans s.channels s.activeNames :=
    mem_activeChans.mpr ⟨hc, hcn ▸ hn⟩
  have : activeChans s.channels s.activeNames ≠ [] := by
    intro hnil; rw [hnil] at hmem; simp at hmem
  have : getHighestPriorityActiveChannel s ≠ none := by
    unfold getHighestPriorityActiveChannel
    rw [Ne, minPrio_eq_none]
    exact this
  exact Option.ne_none_iff_exists'.mp this

theorem getHighest_eq {s : FMState} {c : Channel} (hp : priosOk s)
    (hc : c ∈ s.channels) (ha : c.name ∈ s.activeNames)
    (hmin : ∀ d ∈ s.channels, d.name ∈ s.activeNames → c.priority ≤ d.priority) :
    getHighestPriorityActiveChannel s = some c :=
  minPrio_eq_some (activeChans_prio_nodup hp) (mem_activeChans.mpr ⟨hc, ha⟩)
    (fun d hd => hmin d (mem_activeChans.mp hd).1 (mem_activeChans.mp hd).2)

theorem getHighest_map {s s' : FMState} (g : Channel → Channel)
    (hg1 : ∀ c, (g c).name = c.name) (hg2 : ∀ c, (g c).priority = c.priority)
    (hch : s'.channels = s.channels.map g) (hact : s'.activeNames = s.activeNames) :
    getHighestPriorityActiveChannel s' = (getHighestPriorityActiveChannel s).map g := by
  unfold getHighestPriorityActiveChannel
  rw [hch, hact, activeChans_map g hg1, minPrio_map g hg2]

/-! ### Projection lemmas for the elementary state updates -/

theorem setChannelFocus_activeNames (s : FMState) (n : String) (fs : FocusState) :
    (setChannelFocus s n fs).activeNames = s.activeNames := by
  unfold setChannelFocus
  cases findChannel s.channels n with
  | none => rfl
  | some c => dsimp only; split <;> rfl

theorem setChannelFocus_hasTracker (s : FMState) (n : String) (fs : FocusState) :
    (setChannelFocus s n fs).hasTracker = s.hasTracker := by
  unfold setChannelFocus
  cases findChannel s.channels n with
  | none => rfl
  | some c => dsimp only; split <;> rfl

theorem setChannelFocus_trackerBatches (s : FMState) (n : String) (fs : FocusState) :
    (setChannelFocus s n fs).trackerBatches = s.trackerBatches := by
  unfold setChannelFocus
  cases findChannel s.channels n with
  | none => rfl
  | some c => dsimp only; split <;> rfl

theorem setChannelFocus_shape (s : FMState) (n : String) (fs : FocusState) :
    ∃ g : Channel → Channel, (∀ c, (g c).name = c.name) ∧
      (∀ c, (g c).priority = c.priority) ∧ (∀ c, (g c).interface = c.interface) ∧
      (setChannelFocus s n fs).channels = s.channels.map g := by
  unfold setChannelFocus
  cases h : findChannel s.channels n with
  | none => exact ⟨id, fun _ => rfl, fun _ => rfl, fun _ => rfl, by simp⟩
  | some c =>
    dsimp only
    split
    · refine ⟨fun d => if d.name = n then (d.setFocus fs).1 else d, ?_, ?_, ?_, rfl⟩
      all_goals
        intro d
        by_cases hd : d.name = n
        all_goals simp [hd, Channel.setFocus]
        all_goals split
        all_goals simp [hd]
    · exact ⟨id, fun _ => rfl, fun _ => rfl, fun _ => rfl, by simp⟩

end AFML

namespace AFML

/-! ### Channel.setFocus facts -/

theorem Channel.setFocus_fst_name (c : Channel) (fs : FocusState) :
    ((c.setFocus fs).1).name = c.name := by
  unfold Channel.setFocus; split <;> rfl

theorem Channel.setFocus_fst_priority (c : Channel) (fs : FocusState) :
    ((c.setFocus fs).1).priority = c.priority := by
  unfold Channel.setFocus; split <;> rfl

theorem Channel.setFocus_fst_interface (c : Channel) (fs : FocusState) :
    ((c.setFocus fs).1).interface = c.interface := by
  unfold Channel.setFocus; split <;> rfl

theorem Channel.setFocus_of_eq {c : Channel} {fs : FocusState}
    (he : c.focusState = fs) : c.setFocus fs = (c, false) := by
  unfold Channel.setFocus; rw [if_pos he]

theorem Channel.setFocus_of_ne {c : Channel} {fs : FocusState}
    (he : c.focusState ≠ fs) :
    c.setFocus fs =
      ({ c with focusState := fs,
                observer := if fs = FocusState.NONE then none else c.observer }, true) := by
  unfold Channel.setFocus; rw [if_neg he]

/-! ### setChannelFocus characterization -/

theorem setChannelFocus_of_none {s : FMState} {n : String} {fs : FocusState}
    (h : findChannel s.channels n = none) : setChannelFocus s n fs = s := by
  unfold setChannelFocus; rw [h]

theorem setChannelFocus_of_eq {s : FMState} {n : String} {fs : FocusState}
    {c : Channel} (h : findChannel s.channels n = some c)
    (he : c.focusState = fs) : setChannelFocus s n fs = s := by
  unfold setChannelFocus
  rw [h]
  dsimp only
  rw [Channel.setFocus_of_eq he]
  simp

theorem findChannel_setChannelFocus_self {s : FMState} {n : String}
    {fs : FocusState} {c : Channel} (h : findChannel s.channels n = some c) :
    findChannel (setChannelFocus s n fs).channels n = some (c.setFocus fs).1 := by
  unfold setChannelFocus
  rw [h]
  dsimp only
  by_cases hch : (c.setFocus fs).2 = true
  · rw [if_pos hch]
    dsimp only
    rw [findChannel_map _ (fun d => by
      by_cases hd : d.name = n <;> simp [hd, Channel.setFocus_fst_name]), h]
    have hcn : c.name = n := findChannel_name h
    simp [hcn]
  · rw [if_neg hch]
    have he : c.focusState = fs := by
      by_contra hne
      rw [Channel.setFocus_of_ne hne] at hch
      simp at hch
    rw [Channel.setFocus_of_eq he, h]

theorem findChannel_setChannelFocus_ne {s : FMState} {n m : String}
    {fs : FocusState} (hm : m ≠ n) :
    findChannel (setChannelFocus s n fs).channels m = findChannel s.channels m := by
  unfold setChannelFocus
  cases h : findChannel s.channels n with
  | none => rfl
  | some c =>
    dsimp only
    split
    · rw [findChannel_map _ (fun d => by
        by_cases hd : d.name = n <;> simp [hd, Channel.setFocus_fst_name])]
      cases hm' : findChannel s.channels m with
      | none => rfl
      | some d =>
        have hdn : d.name = m := findChannel_name hm'
        simp [hdn, hm]
    · rfl

theorem getHighest_setChannelFocus_name (s : FMState) (n : String) (fs : FocusState) :
    (getHighestPriorityActiveChannel (setChannelFocus s n fs)).map Channel.name =
      (getHighestPriorityActiveChannel s).map Channel.name := by
  obtain ⟨g, hg1, hg2, _, hch⟩ := setChannelFocus_shape s n fs
  rw [getHighest_map g hg1 hg2 hch (setChannelFocus_activeNames s n fs)]
  cases getHighestPriorityActiveChannel s <;> simp [hg1]

/-! ### Projections of the other elementary updates -/

theorem mem_insertActive {s : FMState} {n m : String} :
    m ∈ (insertActive s n).activeNames ↔ m ∈ s.activeNames ∨ m = n := by
  unfold insertActive
  split
  · rename_i hn
    constructor
    · exact Or.inl
    · rintro (h | rfl)
      · exact h
      · exact hn
  · simp

theorem mem_eraseActive {s : FMState} {n m : String} :
    m ∈ (eraseActive s n).activeNames ↔ m ∈ s.activeNames ∧ m ≠ n := by
  simp [eraseActive, List.mem_filter]

theorem findChannel_setChannelInterface_self {s : FMState} {n iface : String}
    {c : Channel} (h : findChannel s.channels n = some c) :
    findChannel (setChannelInterface s n iface).channels n =
      some { c with interface := iface } := by
  unfold setChannelInterface
  dsimp only
  rw [findChannel_map _ (fun d => by by_cases hd : d.name = n <;> simp [hd]), h]
  have hcn : c.name = n := findChannel_name h
  simp [hcn]

theorem findChannel_setChannelInterface_ne {s : FMState} {n m iface : String}
    (hm : m ≠ n) :
    findChannel (setChannelInterface s n iface).channels m = findChannel s.channels m := by
  unfold setChannelInterface
  dsimp only
  rw [findChannel_map _ (fun d => by by_cases hd : d.name = n <;> simp [hd])]
  cases hm' : findChannel s.channels m with
  | none => rfl
  | some d =>
    have hdn : d.name = m := findChannel_name hm'
    simp [hdn, hm]

theorem findChannel_setChannelObserver_self {s : FMState} {n : String}
    {obs : Option Nat} {c : Channel} (h : findChannel s.channels n = some c) :
    findChannel (setChannelObserver s n obs).channels n =
      some { c with observer := obs } := by
  unfold setChannelObserver
  dsimp only
  rw [findChannel_map _ (fun d => by by_cases hd : d.name = n <;> simp [hd]), h]
  have hcn : c.name = n := findChannel_name h
  simp [hcn]

theorem findChannel_setChannelObserver_ne {s : FMState} {n m : String}
    {obs : Option Nat} (hm : m ≠ n) :
    findChannel (setChannelObserver s n obs).channels m = findChannel s.channels m := by
  unfold setChannelObserver
  dsimp only
  rw [findChannel_map _ (fun d => by by_cases hd : d.name = n <;> simp [hd])]
  cases hm' : findChannel s.channels m with
  | none => rfl
  | some d =>
    have hdn : d.name = m := findChannel_name hm'
    simp [hdn, hm]

end AFML

namespace AFML

/-- The focus state currently recorded for the named channel. -/
def focusOf (s : FMState) (n : String) : Option FocusState :=
  (findChannel s.channels n).map Channel.focusState

theorem Channel.setFocus_fst_focusState (c : Channel) (fs : FocusState) :
    ((c.setFocus fs).1).focusState = fs := by
  unfold Channel.setFocus
  split
  · rename_i h; simpa using h
  · rfl

theorem focusOf_setChannelFocus {s : FMState} {n : String} {fs : FocusState}
    {c : Channel} (h : findChannel s.channels n = some c) :
    focusOf (setChannelFocus s n fs) n = some fs := by
  unfold focusOf
  rw [findChannel_setChannelFocus_self h]
  simp [Channel.setFocus_fst_focusState]

/-! ### Shape of channel-list transformations -/

/-- `s'` is obtained from `s` by a pointwise channel update that preserves
names and priorities (the immutable fields). -/
def ChanShape (s s' : FMState) : Prop :=
  ∃ g : Channel → Channel, (∀ c, (g c).name = c.name) ∧
    (∀ c, (g c).priority = c.priority) ∧ s'.channels = s.channels.map g

theorem ChanShape.refl' {s s' : FMState} (h : s'.channels = s.channels) :
    ChanShape s s' :=
  ⟨id, fun _ => rfl, fun _ => rfl, by simp [h]⟩

theorem ChanShape.trans {s t u : FMState} (h1 : ChanShape s t)
    (h2 : ChanShape t u) : ChanShape s u := by
  obtain ⟨g, hg1, hg2, hgc⟩ := h1
  obtain ⟨f, hf1, hf2, hfc⟩ := h2
  exact ⟨f ∘ g, fun c => by simp [hf1, hg1], fun c => by simp [hf2, hg2],
    by rw [hfc, hgc, List.map_map]⟩

theorem ChanShape.names_eq {s s' : FMState} (h : ChanShape s s') :
    s'.channels.map Channel.name = s.channels.map Channel.name := by
  obtain ⟨g, hg1, _, hgc⟩ := h
  rw [hgc, List.map_map]
  congr 1
  funext c
  exact hg1 c

theorem ChanShape.prios_eq {s s' : FMState} (h : ChanShape s s') :
    s'.channels.map Channel.priority = s.channels.map Channel.priority := by
  obtain ⟨g, _, hg2, hgc⟩ := h
  rw [hgc, List.map_map]
  congr 1
  funext c
  exact hg2 c

theorem ChanShape.namesOk {s s' : FMState} (h : ChanShape s s') (hn : namesOk s) :
    namesOk s' := by
  unfold AFML.namesOk at *
  rw [h.names_eq]
  exact hn

theorem ChanShape.priosOk {s s' : FMState} (h : ChanShape s s') (hp : priosOk s) :
    priosOk s' := by
  unfold AFML.priosOk at *
  rw [h.prios_eq]
  exact hp

theorem ChanShape.hasName {s s' : FMState} (h : ChanShape s s') {n : String} :
    (∃ c ∈ s'.channels, c.name = n) ↔ ∃ c ∈ s.channels, c.name = n := by
  have he := h.names_eq
  constructor <;> intro ⟨c, hc, hcn⟩
  · have : n ∈ s.channels.map Channel.name := by
      rw [← he]; exact List.mem_map.mpr ⟨c, hc, hcn⟩
    obtain ⟨d, hd, hdn⟩ := List.mem_map.mp this
    exact ⟨d, hd, hdn⟩
  · have : n ∈ s'.channels.map Channel.name := by
      rw [he]; exact List.mem_map.mpr ⟨c, hc, hcn⟩
    obtain ⟨d, hd, hdn⟩ := List.mem_map.mp this
    exact ⟨d, hd, hdn⟩

theorem chanShape_setChannelFocus (s : FMState) (n : String) (fs : FocusState) :
    ChanShape s (setChannelFocus s n fs) := by
  obtain ⟨g, hg1, hg2, _, hch⟩ := setChannelFocus_shape s n fs
  exact ⟨g, hg1, hg2, hch⟩

theorem chanShape_setChannelInterface (s : FMState) (n iface : String) :
    ChanShape s (setChannelInterface s n iface) := by
  refine ⟨fun d => if d.name = n then { d with interface := iface } else d, ?_, ?_, rfl⟩
  all_goals intro c; by_cases hc : c.name = n <;> simp [hc]

theorem chanShape_setChannelObserver (s : FMState) (n : String) (obs : Option Nat) :
    ChanShape s (setChannelObserver s n obs) := by
  refine ⟨fun d => if d.name = n then { d with observer := obs } else d, ?_, ?_, rfl⟩
  all_goals intro c; by_cases hc : c.name = n <;> simp [hc]

theorem insertActive_channels (s : FMState) (n : String) :
    (insertActive s n).channels = s.channels := by
  unfold insertActive; split <;> rfl

theorem chanShape_foregroundHighest (s : FMState) :
    ChanShape s (foregroundHighestPriorityActiveChannel s) := by
  unfold foregroundHighestPriorityActiveChannel
  cases getHighestPriorityActiveChannel s with
  | none => exact ChanShape.refl' rfl
  | some c => exact chanShape_setChannelFocus s c.name FocusState.FOREGROUND

/-! ### Invariant congruence -/

theorem getHighest_congr {s s' : FMState} (hch : s'.channels = s.channels)
    (ha : s'.activeNames = s.activeNames) :
    getHighestPriorityActiveChannel s' = getHighestPriorityActiveChannel s := by
  unfold getHighestPriorityActiveChannel activeChans
  rw [hch, ha]

theorem inv_congr {s s' : FMState} (hch : s'.channels = s.channels)
    (ha : s'.activeNames = s.activeNames) (h : Inv s) : Inv s' := by
  obtain ⟨hn, hp, hsub, hfoc⟩ := h
  refine ⟨?_, ?_, ?_, ?_⟩
  · unfold namesOk at *; rw [hch]; exact hn
  · unfold priosOk at *; rw [hch]; exact hp
  · unfold activeSub at *; rw [hch, ha]; exact hsub
  · intro c hc
    rw [hch] at hc
    have h2 := hfoc c hc
    unfold focusOk isChannelForegrounded at h2 ⊢
    simp only [ha, getHighest_congr hch ha]
    exact h2

theorem inv_notifyActivityTracker {s : FMState} (h : Inv s) :
    Inv (notifyActivityTracker s) :=
  inv_congr rfl rfl h

end AFML

namespace AFML

/-- After `foregroundHighestPriorityActiveChannel`, a state whose only
deviation from the invariant is that its highest-priority active channel may
still be BACKGROUND satisfies the full invariant. -/
theorem promote_inv {s : FMState} (h : PreInv s) :
    Inv (foregroundHighestPriorityActiveChannel s) := by
  obtain ⟨hn, hp, hsub, hfoc⟩ := h
  unfold foregroundHighestPriorityActiveChannel
  cases hH : getHighestPriorityActiveChannel s with
  | none =>
    refine ⟨hn, hp, hsub, ?_⟩
    intro c hc
    have hna := getHighest_none hH c hc
    have hpf := hfoc c hc
    unfold preFocusOk at hpf
    unfold focusOk
    rw [if_neg hna] at hpf ⊢
    exact hpf
  | some hch =>
    dsimp only
    have hmem := getHighest_mem hH
    have hfochch := hfoc hch hmem.1
    unfold preFocusOk at hfochch
    rw [if_pos hmem.2] at hfochch
    have hfg : isChannelForegrounded s hch.name := by
      unfold isChannelForegrounded; rw [hH]; rfl
    rw [if_pos hfg] at hfochch
    have hfind : findChannel s.channels hch.name = some hch :=
      findChannel_eq_of_mem hn hmem.1
    cases hfochch with
    | inl hFG =>
      rw [setChannelFocus_of_eq hfind hFG]
      refine ⟨hn, hp, hsub, ?_⟩
      intro c hc
      have hpf := hfoc c hc
      unfold preFocusOk at hpf
      unfold focusOk
      by_cases hac : c.name ∈ s.activeNames
      · rw [if_pos hac] at hpf ⊢
        by_cases hisf : isChannelForegrounded s c.name
        · rw [if_pos hisf] at hpf ⊢
          have hname : hch.name = c.name := by
            unfold isChannelForegrounded at hisf
            rw [hH] at hisf
            simpa using hisf
          have hceq : c = hch := name_inj hn hc hmem.1 hname.symm
          rw [hceq]
          exact hFG
        · rw [if_neg hisf] at hpf ⊢
          exact hpf
      · rw [if_neg hac] at hpf ⊢
        exact hpf
    | inr hBG =>
      set s' := setChannelFocus s hch.name FocusState.FOREGROUND with hs'
      have hshape : ChanShape s s' := chanShape_setChannelFocus s hch.name _
      have hact : s'.activeNames = s.activeNames :=
        setChannelFocus_activeNames s hch.name _
      have hn' : namesOk s' := hshape.namesOk hn
      have hHname : (getHighestPriorityActiveChannel s').map Channel.name =
          some hch.name := by
        rw [hs', getHighest_setChannelFocus_name, hH]
        rfl
      refine ⟨hn', hshape.priosOk hp, ?_, ?_⟩
      · intro m hm
        rw [hact] at hm
        exact hshape.hasName.mpr (hsub m hm)
      · intro c hc
        have hfind' : findChannel s'.channels c.name = some c :=
          findChannel_eq_of_mem hn' hc
        unfold focusOk
        by_cases hceq : c.name = hch.name
        · have hcval : findChannel s'.channels c.name =
              some ((hch.setFocus FocusState.FOREGROUND).1) := by
            rw [hceq, hs']
            exact findChannel_setChannelFocus_self hfind
          have hc2 : c = (hch.setFocus FocusState.FOREGROUND).1 := by
            rw [hfind'] at hcval
            exact Option.some.inj hcval
          have hacm : c.name ∈ s'.activeNames := by
            rw [hact, hceq]; exact hmem.2
          rw [if_pos hacm]
          have hisf' : isChannelForegrounded s' c.name := by
            unfold isChannelForegrounded
            rw [hHname, hceq]
          rw [if_pos hisf']
          rw [hc2]
          exact Channel.setFocus_fst_focusState hch FocusState.FOREGROUND
        · have hfc : findChannel s'.channels c.name = findChannel s.channels c.name := by
            rw [hs']
            exact findChannel_setChannelFocus_ne hceq
          have hcs : c ∈ s.channels := findChannel_mem (hfc ▸ hfind')
          have hpf := hfoc c hcs
          unfold preFocusOk at hpf
          by_cases hac : c.name ∈ s.activeNames
          · rw [if_pos hac] at hpf
            have hnf : ¬isChannelForegrounded s c.name := by
              intro hf
              unfold isChannelForegrounded at hf
              rw [hH] at hf
              exact hceq (Option.some.inj hf).symm
            rw [if_neg hnf] at hpf
            have hacm : c.name ∈ s'.activeNames := by rw [hact]; exact hac
            rw [if_pos hacm]
            have hnf' : ¬isChannelForegrounded s' c.name := by
              intro hf
              unfold isChannelForegrounded at hf
              rw [hHname] at hf
              exact hceq (Option.some.inj hf).symm
            rw [if_neg hnf']
            exact hpf
          · rw [if_neg hac] at hpf
            have hacm : c.name ∉ s'.activeNames := by rw [hact]; exact hac
            rw [if_neg hacm]
            exact hpf

end AFML

namespace AFML

/-- Core of the release path: after erasing the target from the active set
and forcing it to NONE, the state satisfies the pre-fix-up invariant; when
the target was not the foreground channel it satisfies the full invariant
(no promotion is needed). -/
theorem inv_release_core {s : FMState} {n : String} {c : Channel}
    (h : Inv s) (hf : findChannel s.channels n = some c) :
    PreInv (setChannelFocus (eraseActive s n) n FocusState.NONE) ∧
      (¬isChannelForegrounded s n →
        Inv (setChannelFocus (eraseActive s n) n FocusState.NONE)) := by
  obtain ⟨hn, hp, hsub, hfoc⟩ := h
  set s1 := eraseActive s n with hs1
  set s2 := setChannelFocus s1 n FocusState.NONE with hs2
  have hch1 : s1.channels = s.channels := rfl
  have hf1 : findChannel s1.channels n = some c := by rw [hch1]; exact hf
  have hshape : ChanShape s s2 :=
    (ChanShape.refl' hch1).trans (chanShape_setChannelFocus s1 n _)
  have hn2 : namesOk s2 := hshape.namesOk hn
  have hp2 : priosOk s2 := hshape.priosOk hp
  have hmem2 : ∀ m, m ∈ s2.activeNames ↔ m ∈ s.activeNames ∧ m ≠ n := by
    intro m
    rw [hs2, setChannelFocus_activeNames]
    exact mem_eraseActive
  have hsub2 : activeSub s2 := by
    intro m hm
    exact hshape.hasName.mpr (hsub m ((hmem2 m).mp hm).1)
  have hlookup_ne : ∀ m, m ≠ n →
      findChannel s2.channels m = findChannel s.channels m := by
    intro m hm
    rw [hs2, findChannel_setChannelFocus_ne hm, hch1]
  have hlookup_self : findChannel s2.channels n =
      some ((c.setFocus FocusState.NONE).1) := by
    rw [hs2]
    exact findChannel_setChannelFocus_self hf1
  have hdec : ∀ d ∈ s2.channels,
      (d.name = n ∧ d = (c.setFocus FocusState.NONE).1) ∨
        (d.name ≠ n ∧ d ∈ s.channels) := by
    intro d hd
    have hfd := findChannel_eq_of_mem hn2 hd
    by_cases hdn : d.name = n
    · rw [hdn, hlookup_self] at hfd
      exact Or.inl ⟨hdn, (Option.some.inj hfd).symm⟩
    · rw [hlookup_ne d.name hdn] at hfd
      exact Or.inr ⟨hdn, findChannel_mem hfd⟩
  have hkeep : ∀ h0, getHighestPriorityActiveChannel s = some h0 → h0.name ≠ n →
      getHighestPriorityActiveChannel s2 = some h0 := by
    intro h0 hH0 hh0n
    have hm0 := getHighest_mem hH0
    have h0in2 : h0 ∈ s2.channels := by
      have hlk : findChannel s2.channels h0.name = some h0 := by
        rw [hlookup_ne h0.name hh0n]
        exact findChannel_eq_of_mem hn hm0.1
      exact findChannel_mem hlk
    apply getHighest_eq hp2 h0in2 ((hmem2 h0.name).mpr ⟨hm0.2, hh0n⟩)
    intro e he hea
    rcases hdec e he with ⟨hen, _⟩ | ⟨hen, hes⟩
    · exact absurd hen ((hmem2 e.name).mp hea).2
    · exact getHighest_le hH0 e hes ((hmem2 e.name).mp hea).1
  constructor
  · refine ⟨hn2, hp2, hsub2, ?_⟩
    intro d hd
    unfold preFocusOk
    rcases hdec d hd with ⟨hdn, hdv⟩ | ⟨hdn, hds⟩
    · have hna : d.name ∉ s2.activeNames := by
        rw [hdn]
        intro hcon
        exact ((hmem2 n).mp hcon).2 rfl
      rw [if_neg hna, hdv]
      exact Channel.setFocus_fst_focusState c _
    · have hfocd := hfoc d hds
      unfold focusOk at hfocd
      by_cases hda : d.name ∈ s2.activeNames
      · have hda' := ((hmem2 d.name).mp hda).1
        rw [if_pos hda]
        rw [if_pos hda'] at hfocd
        by_cases hdf : isChannelForegrounded s d.name
        · rw [if_pos hdf] at hfocd
          unfold isChannelForegrounded at hdf
          cases hH0 : getHighestPriorityActiveChannel s with
          | none => rw [hH0] at hdf; simp at hdf
          | some h0 =>
            rw [hH0] at hdf
            have hname : h0.name = d.name := by simpa using hdf
            have hkeep2 := hkeep h0 hH0 (by rw [hname]; exact hdn)
            have hdf2 : isChannelForegrounded s2 d.name := by
              unfold isChannelForegrounded
              rw [hkeep2]
              simp [hname]
            rw [if_pos hdf2]
            exact Or.inl hfocd
        · rw [if_neg hdf] at hfocd
          by_cases hdf2 : isChannelForegrounded s2 d.name
          · rw [if_pos hdf2]; exact Or.inr hfocd
          · rw [if_neg hdf2]; exact hfocd
      · have hna : d.name ∉ s.activeNames := by
          intro hcon
          exact hda ((hmem2 d.name).mpr ⟨hcon, hdn⟩)
        rw [if_neg hna] at hfocd
        rw [if_neg hda]
        exact hfocd
  · intro hnw
    refine ⟨hn2, hp2, hsub2, ?_⟩
    intro d hd
    unfold focusOk
    rcases hdec d hd with ⟨hdn, hdv⟩ | ⟨hdn, hds⟩
    · have hna : d.name ∉ s2.activeNames := by
        rw [hdn]
        intro hcon
        exact ((hmem2 n).mp hcon).2 rfl
      rw [if_neg hna, hdv]
      exact Channel.setFocus_fst_focusState c _
    · have hfocd := hfoc d hds
      unfold focusOk at hfocd
      by_cases hda : d.name ∈ s2.activeNames
      · have hda' := ((hmem2 d.name).mp hda).1
        rw [if_pos hda]
        rw [if_pos hda'] at hfocd
        obtain ⟨h0, hH0⟩ := getHighest_isSome hsub (by
          intro hnil
          rw [hnil] at hda'
          simp at hda')
        have hh0n : h0.name ≠ n := by
          intro hcon
          apply hnw
          unfold isChannelForegrounded
          rw [hH0]
          simp [hcon]
        have hkeep2 := hkeep h0 hH0 hh0n
        have hiff : isChannelForegrounded s2 d.name ↔ isChannelForegrounded s d.name := by
          unfold isChannelForegrounded
          rw [hH0, hkeep2]
        by_cases hdf : isChannelForegrounded s d.name
        · rw [if_pos hdf] at hfocd
          rw [if_pos (hiff.mpr hdf)]
          exact hfocd
        · rw [if_neg hdf] at hfocd
          rw [if_neg (fun hcon => hdf (hiff.mp hcon))]
          exact hfocd
      · have hna : d.name ∉ s.activeNames := by
          intro hcon
          exact hda ((hmem2 d.name).mpr ⟨hcon, hdn⟩)
        rw [if_neg hna] at hfocd
        rw [if_neg hda]
        exact hfocd

/-- The queued release task preserves the invariant. -/
theorem inv_releaseChannelHelper {s : FMState} {n : String} {obs : Nat}
    (h : Inv s) : Inv (releaseChannelHelper s n obs).1 := by
  unfold releaseChannelHelper
  cases hf : findChannel s.channels n with
  | none => exact h
  | some c =>
    dsimp only
    split
    · by_cases hw : isChannelForegrounded s n
      · rw [if_pos hw]
        exact inv_notifyActivityTracker (promote_inv (inv_release_core h hf).1)
      · rw [if_neg hw]
        exact inv_notifyActivityTracker ((inv_release_core h hf).2 hw)
    · exact h

end AFML

namespace AFML

theorem priorityOf_eq {s : FMState} {n : String} {c : Channel}
    (hf : findChannel s.channels n = some c) : priorityOf s n = c.priority := by
  unfold priorityOf
  rw [hf]

/-- Erasing from the active set commutes with a focus write (they touch
disjoint parts of the state). -/
theorem erase_setFocus_comm (s : FMState) (n : String) (fs : FocusState) :
    eraseActive (setChannelFocus s n fs) n = setChannelFocus (eraseActive s n) n fs := by
  unfold setChannelFocus
  have hch : findChannel (eraseActive s n).channels n = findChannel s.channels n := rfl
  rw [hch]
  cases findChannel s.channels n with
  | none => rfl
  | some c =>
    dsimp only
    split <;> rfl

/-- When the highest-priority active channel after a focus write is not the
written channel, it was already the highest-priority active channel before. -/
theorem getHighest_setFocus_rev {s : FMState} {n : String} {fs : FocusState}
    {f : Channel} (hn : namesOk s)
    (hH1 : getHighestPriorityActiveChannel (setChannelFocus s n fs) = some f)
    (hfn : f.name ≠ n) : getHighestPriorityActiveChannel s = some f := by
  have hmap := getHighest_setChannelFocus_name s n fs
  rw [hH1] at hmap
  have hm1 := getHighest_mem hH1
  have hshape := chanShape_setChannelFocus s n fs
  have hn1 : namesOk (setChannelFocus s n fs) := hshape.namesOk hn
  have hfs : f ∈ s.channels := by
    have hlk : findChannel (setChannelFocus s n fs).channels f.name = some f :=
      findChannel_eq_of_mem hn1 hm1.1
    rw [findChannel_setChannelFocus_ne hfn] at hlk
    exact findChannel_mem hlk
  cases hH0 : getHighestPriorityActiveChannel s with
  | none => rw [hH0] at hmap; simp at hmap
  | some h0 =>
    rw [hH0] at hmap
    have hname : f.name = h0.name := by simpa using hmap
    have heq : h0 = f := name_inj hn (getHighest_mem hH0).1 hfs hname.symm
    rw [← heq]

/-- Lookup of the target after the acquire task's interface/insert/observer
steps. -/
theorem acquireMid_lookup_self {s : FMState} {n : String} {c : Channel}
    (hf : findChannel s.channels n = some c) (obs : Nat) (iface : String) :
    findChannel (setChannelObserver
        (insertActive (setChannelInterface (setChannelFocus s n FocusState.NONE) n iface) n)
        n (some obs)).channels n =
      some { (c.setFocus FocusState.NONE).1 with
             interface := iface, observer := some obs } := by
  have h1 : findChannel (setChannelFocus s n FocusState.NONE).channels n =
      some ((c.setFocus FocusState.NONE).1) := findChannel_setChannelFocus_self hf
  have h2 : findChannel (setChannelInterface (setChannelFocus s n FocusState.NONE) n
      iface).channels n =
      some { (c.setFocus FocusState.NONE).1 with interface := iface } :=
    findChannel_setChannelInterface_self h1
  have h3 : findChannel (insertActive (setChannelInterface
      (setChannelFocus s n FocusState.NONE) n iface) n).channels n =
      some { (c.setFocus FocusState.NONE).1 with interface := iface } := by
    rw [insertActive_channels]
    exact h2
  exact findChannel_setChannelObserver_self h3

/-- Lookup of any other channel is unchanged by the acquire task's first four
steps. -/
theorem acquireMid_lookup_ne {s : FMState} {n m : String} (obs : Nat)
    (iface : String) (hm : m ≠ n) :
    findChannel (setChannelObserver
        (insertActive (setChannelInterface (setChannelFocus s n FocusState.NONE) n iface) n)
        n (some obs)).channels m = findChannel s.channels m := by
  rw [findChannel_setChannelObserver_ne hm, insertActive_channels,
    findChannel_setChannelInterface_ne hm, findChannel_setChannelFocus_ne hm]

theorem acquireMid_active {s : FMState} {n m : String} (obs : Nat) (iface : String) :
    m ∈ (setChannelObserver
        (insertActive (setChannelInterface (setChannelFocus s n FocusState.NONE) n iface) n)
        n (some obs)).activeNames ↔ m ∈ s.activeNames ∨ m = n := by
  have h1 : (setChannelObserver
      (insertActive (setChannelInterface (setChannelFocus s n FocusState.NONE) n iface) n)
      n (some obs)).activeNames =
      (insertActive (setChannelInterface (setChannelFocus s n FocusState.NONE) n iface)
        n).activeNames := rfl
  rw [h1, mem_insertActive]
  have h2 : (setChannelInterface (setChannelFocus s n FocusState.NONE) n iface).activeNames =
      s.activeNames := setChannelFocus_activeNames s n FocusState.NONE
  rw [h2]

theorem acquireMid_chanShape (s : FMState) (n : String) (obs : Nat) (iface : String) :
    ChanShape s (setChannelObserver
      (insertActive (setChannelInterface (setChannelFocus s n FocusState.NONE) n iface) n)
      n (some obs)) := by
  refine ((chanShape_setChannelFocus s n FocusState.NONE).trans ?_).trans
    (chanShape_setChannelObserver _ n (some obs))
  refine (chanShape_setChannelInterface _ n iface).trans ?_
  exact ChanShape.refl' (insertActive_channels _ n)

/-- If no channel is active after the target is forced to NONE, the active
set was empty to begin with. -/
theorem active_nil_of_getHighest_none {s : FMState} {n : String}
    (_hn : namesOk s) (hsub : activeSub s)
    (hH : getHighestPriorityActiveChannel (setChannelFocus s n FocusState.NONE) = none) :
    s.activeNames = [] := by
  by_contra hne
  set s1 := setChannelFocus s n FocusState.NONE with hs1
  have hact : s1.activeNames = s.activeNames := setChannelFocus_activeNames s n _
  have hsub1 : activeSub s1 := by
    intro m hm
    rw [hact] at hm
    exact (chanShape_setChannelFocus s n FocusState.NONE).hasName.mpr (hsub m hm)
  obtain ⟨c, hc⟩ := getHighest_isSome hsub1 (by rw [hact]; exact hne)
  rw [hc] at hH
  exact Option.noConfusion hH

end AFML

namespace AFML

/-- The queued acquire task preserves the invariant (the target channel must
exist: `acquireChannel` validates this before queueing the task). -/
theorem inv_acquireChannelHelper {s : FMState} {n : String} {obs : Nat}
    {iface : String} {c : Channel} (h : Inv s)
    (hf : findChannel s.channels n = some c) :
    Inv (acquireChannelHelper s n obs iface) := by
  obtain ⟨hn, hp, hsub, hfoc⟩ := h
  have hcn : c.name = n := findChannel_name hf
  unfold acquireChannelHelper
  dsimp only
  set s1 := setChannelFocus s n FocusState.NONE with hs1
  set s3 := setChannelObserver (insertActive (setChannelInterface s1 n iface) n) n
    (some obs) with hs3
  set cMid : Channel := { (c.setFocus FocusState.NONE).1 with
    interface := iface, observer := some obs } with hcMid
  have hmidself : findChannel s3.channels n = some cMid := acquireMid_lookup_self hf obs iface
  have hmidne : ∀ m, m ≠ n → findChannel s3.channels m = findChannel s.channels m :=
    fun m hm => acquireMid_lookup_ne obs iface hm
  have hmidact : ∀ m, m ∈ s3.activeNames ↔ m ∈ s.activeNames ∨ m = n :=
    fun m => acquireMid_active obs iface
  have hshape3 : ChanShape s s3 := acquireMid_chanShape s n obs iface
  have hn3 : namesOk s3 := hshape3.namesOk hn
  have hp3 : priosOk s3 := hshape3.priosOk hp
  have hsub3 : activeSub s3 := by
    intro m hm
    rcases (hmidact m).mp hm with h' | rfl
    · exact hshape3.hasName.mpr (hsub m h')
    · exact hshape3.hasName.mpr ⟨c, findChannel_mem hf, hcn⟩
  have hcMidname : cMid.name = n := by
    rw [show cMid.name = ((c.setFocus FocusState.NONE).1).name from rfl,
      Channel.setFocus_fst_name]
    exact hcn
  have hcMidprio : cMid.priority = c.priority := by
    rw [show cMid.priority = ((c.setFocus FocusState.NONE).1).priority from rfl,
      Channel.setFocus_fst_priority]
  have hcMidfocus : cMid.focusState = FocusState.NONE := by
    rw [show cMid.focusState = ((c.setFocus FocusState.NONE).1).focusState from rfl,
      Channel.setFocus_fst_focusState]
  cases hfg : getHighestPriorityActiveChannel s1 with
  | none =>
    have hact0 : s.activeNames = [] := active_nil_of_getHighest_none hn hsub hfg
    apply inv_notifyActivityTracker
    set s4 := setChannelFocus s3 n FocusState.FOREGROUND with hs4
    have hshape4 : ChanShape s s4 := hshape3.trans (chanShape_setChannelFocus s3 n _)
    have hn4 : namesOk s4 := hshape4.namesOk hn
    have hp4 : priosOk s4 := hshape4.priosOk hp
    have hact4 : ∀ m, m ∈ s4.activeNames ↔ m = n := by
      intro m
      rw [hs4, setChannelFocus_activeNames]
      rw [hmidact m, hact0]
      simp
    have hself4 : findChannel s4.channels n = some ((cMid.setFocus FocusState.FOREGROUND).1) := by
      rw [hs4]
      exact findChannel_setChannelFocus_self hmidself
    have hne4 : ∀ m, m ≠ n → findChannel s4.channels m = findChannel s.channels m := by
      intro m hm
      rw [hs4, findChannel_setChannelFocus_ne hm]
      exact hmidne m hm
    set c4 : Channel := (cMid.setFocus FocusState.FOREGROUND).1 with hc4
    have hc4name : c4.name = n := by
      rw [hc4, Channel.setFocus_fst_name]; exact hcMidname
    have hc4focus : c4.focusState = FocusState.FOREGROUND :=
      Channel.setFocus_fst_focusState cMid _
    have hH4 : getHighestPriorityActiveChannel s4 = some c4 := by
      apply getHighest_eq hp4 (findChannel_mem hself4)
      · rw [(hact4 c4.name)]; exact hc4name
      · intro e he hea
        have hen : e.name = n := (hact4 e.name).mp hea
        have : findChannel s4.channels e.name = some e := findChannel_eq_of_mem hn4 he
        rw [hen, hself4] at this
        rw [(Option.some.inj this)]
    refine ⟨hn4, hp4, ?_, ?_⟩
    · intro m hm
      have := (hact4 m).mp hm
      subst this
      exact hshape4.hasName.mpr ⟨c, findChannel_mem hf, hcn⟩
    · intro d hd
      unfold focusOk
      have hfd := findChannel_eq_of_mem hn4 hd
      by_cases hdn : d.name = n
      · rw [hdn, hself4] at hfd
        have hdc : d = c4 := (Option.some.inj hfd).symm
        have hmem : d.name ∈ s4.activeNames := (hact4 d.name).mpr hdn
        rw [if_pos hmem]
        have hfg4 : isChannelForegrounded s4 d.name := by
          unfold isChannelForegrounded
          rw [hH4]
          simp [hc4name, hdn]
        rw [if_pos hfg4, hdc]
        exact hc4focus
      · rw [hne4 d.name hdn] at hfd
        have hds : d ∈ s.channels := findChannel_mem hfd
        have hfocd := hfoc d hds
        unfold focusOk at hfocd
        have hna : d.name ∉ s.activeNames := by rw [hact0]; simp
        rw [if_neg hna] at hfocd
        have hna4 : d.name ∉ s4.activeNames := by
          rw [hact4 d.name]; exact hdn
        rw [if_neg hna4]
        exact hfocd
  | some f =>
    dsimp only
    by_cases hfn : f.name = n
    · rw [if_pos hfn]
      apply inv_notifyActivityTracker
      have hfm := getHighest_mem hfg
      have hnact : n ∈ s.activeNames := by
        have := hfm.2
        rw [setChannelFocus_activeNames] at this
        rw [← hfn]
        exact this
      have hHsname : (getHighestPriorityActiveChannel s).map Channel.name = some n := by
        rw [← getHighest_setChannelFocus_name s n FocusState.NONE, ← hs1, hfg]
        simp [hfn]
      obtain ⟨h0, hH0⟩ : ∃ h0, getHighestPriorityActiveChannel s = some h0 := by
        cases hx : getHighestPriorityActiveChannel s with
        | none => rw [hx] at hHsname; simp at hHsname
        | some y => exact ⟨y, rfl⟩
      have hh0n : h0.name = n := by rw [hH0] at hHsname; simpa using hHsname
      have hh0c : h0 = c := by
        apply name_inj hn (getHighest_mem hH0).1 (findChannel_mem hf)
        rw [hh0n, hcn]
      set s4 := setChannelFocus s3 n FocusState.FOREGROUND with hs4
      have hshape4 : ChanShape s s4 := hshape3.trans (chanShape_setChannelFocus s3 n _)
      have hn4 : namesOk s4 := hshape4.namesOk hn
      have hp4 : priosOk s4 := hshape4.priosOk hp
      have hact4 : ∀ m, m ∈ s4.activeNames ↔ m ∈ s.activeNames := by
        intro m
        rw [hs4, setChannelFocus_activeNames, hmidact m]
        constructor
        · rintro (hm | rfl)
          · exact hm
          · exact hnact
        · exact Or.inl
      have hself4 : findChannel s4.channels n =
          some ((cMid.setFocus FocusState.FOREGROUND).1) := by
        rw [hs4]
        exact findChannel_setChannelFocus_self hmidself
      have hne4 : ∀ m, m ≠ n → findChannel s4.channels m = findChannel s.channels m := by
        intro m hm
        rw [hs4, findChannel_setChannelFocus_ne hm]
        exact hmidne m hm
      set c4 : Channel := (cMid.setFocus FocusState.FOREGROUND).1 with hc4
      have hc4name : c4.name = n := by
        rw [hc4, Channel.setFocus_fst_name]; exact hcMidname
      have hc4prio : c4.priority = c.priority := by
        rw [hc4, Channel.setFocus_fst_priority]; exact hcMidprio
      have hc4focus : c4.focusState = FocusState.FOREGROUND :=
        Channel.setFocus_fst_focusState cMid _
      have hH4 : getHighestPriorityActiveChannel s4 = some c4 := by
        apply getHighest_eq hp4 (findChannel_mem hself4)
        · rw [hact4 c4.name, hc4name]; exact hnact
        · intro e he hea
          have hfe := findChannel_eq_of_mem hn4 he
          by_cases hen : e.name = n
          · rw [hen, hself4] at hfe
            rw [(Option.some.inj hfe)]
          · rw [hne4 e.name hen] at hfe
            have hes : e ∈ s.channels := findChannel_mem hfe
            have : c.priority ≤ e.priority := by
              have := getHighest_le hH0 e hes ((hact4 e.name).mp hea)
              rw [hh0c] at this
              exact this
            rw [hc4prio]
            exact this
      refine ⟨hn4, hp4, ?_, ?_⟩
      · intro m hm
        exact hshape4.hasName.mpr (hsub m ((hact4 m).mp hm))
      · intro d hd
        unfold focusOk
        have hfd := findChannel_eq_of_mem hn4 hd
        by_cases hdn : d.name = n
        · rw [hdn, hself4] at hfd
          have hdc : d = c4 := (Option.some.inj hfd).symm
          have hmem : d.name ∈ s4.activeNames := by
            rw [hact4 d.name, hdn]; exact hnact
          rw [if_pos hmem]
          have hfg4 : isChannelForegrounded s4 d.name := by
            unfold isChannelForegrounded
            rw [hH4]
            simp [hc4name, hdn]
          rw [if_pos hfg4, hdc]
          exact hc4focus
        · rw [hne4 d.name hdn] at hfd
          have hds : d ∈ s.channels := findChannel_mem hfd
          have hfocd := hfoc d hds
          unfold focusOk at hfocd
          by_cases hda : d.name ∈ s.activeNames
          · rw [if_pos hda] at hfocd
            have hnf : ¬isChannelForegrounded s d.name := by
              intro hcon
              unfold isChannelForegrounded at hcon
              rw [hHsname] at hcon
              exact hdn (Option.some.inj hcon).symm
            rw [if_neg hnf] at hfocd
            rw [if_pos ((hact4 d.name).mpr hda)]
            have hnf4 : ¬isChannelForegrounded s4 d.name := by
              intro hcon
              unfold isChannelForegrounded at hcon
              rw [hH4] at hcon
              simp [hc4name] at hcon
              exact hdn hcon.symm
            rw [if_neg hnf4]
            exact hfocd
          · rw [if_neg hda] at hfocd
            rw [if_neg (fun hcon => hda ((hact4 d.name).mp hcon))]
            exact hfocd
    · rw [if_neg hfn]
      simp only [priorityOf_eq hf]
      have hHs : getHighestPriorityActiveChannel s = some f :=
        getHighest_setFocus_rev hn hfg hfn
      have hfmem := getHighest_mem hHs
      have hfFG : f.focusState = FocusState.FOREGROUND := by
        have hfocf := hfoc f hfmem.1
        unfold focusOk at hfocf
        rw [if_pos hfmem.2] at hfocf
        have : isChannelForegrounded s f.name := by
          unfold isChannelForegrounded
          rw [hHs]
          rfl
        rw [if_pos this] at hfocf
        exact hfocf
      have hffind : findChannel s.channels f.name = some f :=
        findChannel_eq_of_mem hn hfmem.1
      by_cases hlt : c.priority < f.priority
      · rw [if_pos hlt]
        apply inv_notifyActivityTracker
        have hnact : n ∉ s.activeNames := by
          intro hcon
          have hc1 : findChannel s1.channels n = some ((c.setFocus FocusState.NONE).1) := by
            rw [hs1]
            exact findChannel_setChannelFocus_self hf
          have hc1m := findChannel_mem hc1
          have hc1n : ((c.setFocus FocusState.NONE).1).name = n := by
            rw [Channel.setFocus_fst_name]; exact hcn
          have hle := getHighest_le hfg _ hc1m (by
            rw [hc1n, hs1, setChannelFocus_activeNames]
            exact hcon)
          rw [Channel.setFocus_fst_priority] at hle
          omega
        set sF := setChannelFocus s3 f.name FocusState.BACKGROUND with hsF
        have hFfind3 : findChannel s3.channels f.name = some f := by
          rw [hmidne f.name hfn]
          exact hffind
        have hFself : findChannel sF.channels f.name =
            some ((f.setFocus FocusState.BACKGROUND).1) := by
          rw [hsF]
          exact findChannel_setChannelFocus_self hFfind3
        have hFne : ∀ m, m ≠ f.name → findChannel sF.channels m = findChannel s3.channels m := by
          intro m hm
          rw [hsF, findChannel_setChannelFocus_ne hm]
        set fB : Channel := (f.setFocus FocusState.BACKGROUND).1 with hfB
        have hfBname : fB.name = f.name := Channel.setFocus_fst_name f _
        have hfBprio : fB.priority = f.priority := Channel.setFocus_fst_priority f _
        have hfBfocus : fB.focusState = FocusState.BACKGROUND :=
          Channel.setFocus_fst_focusState f _
        set s4 := setChannelFocus sF n FocusState.FOREGROUND with hs4
        have hshape4 : ChanShape s s4 :=
          ((hshape3.trans (chanShape_setChannelFocus s3 f.name _)).trans
            (chanShape_setChannelFocus sF n _))
        have hn4 : namesOk s4 := hshape4.namesOk hn
        have hp4 : priosOk s4 := hshape4.priosOk hp
        have hact4 : ∀ m, m ∈ s4.activeNames ↔ m ∈ s.activeNames ∨ m = n := by
          intro m
          rw [hs4, setChannelFocus_activeNames, hsF, setChannelFocus_activeNames]
          exact hmidact m
        have hselfF3 : findChannel sF.channels n = some cMid := by
          rw [hFne n (fun hcon => hfn hcon.symm)]
          exact hmidself
        have hself4 : findChannel s4.channels n =
            some ((cMid.setFocus FocusState.FOREGROUND).1) := by
          rw [hs4]
          exact findChannel_setChannelFocus_self hselfF3
        have hf4 : findChannel s4.channels f.name = some fB := by
          rw [hs4, findChannel_setChannelFocus_ne hfn]
          exact hFself
        have hne4 : ∀ m, m ≠ n → m ≠ f.name →
            findChannel s4.channels m = findChannel s.channels m := by
          intro m hm1 hm2
          rw [hs4, findChannel_setChannelFocus_ne hm1, hFne m hm2]
          exact hmidne m hm1
        set c4 : Channel := (cMid.setFocus FocusState.FOREGROUND).1 with hc4
        have hc4name : c4.name = n := by
          rw [hc4, Channel.setFocus_fst_name]; exact hcMidname
        have hc4prio : c4.priority = c.priority := by
          rw [hc4, Channel.setFocus_fst_priority]; exact hcMidprio
        have hc4focus : c4.focusState = FocusState.FOREGROUND :=
          Channel.setFocus_fst_focusState cMid _
        have hH4 : getHighestPriorityActiveChannel s4 = some c4 := by
          apply getHighest_eq hp4 (findChannel_mem hself4)
          · rw [hact4 c4.name, hc4name]
            exact Or.inr rfl
          · intro e he hea
            have hfe := findChannel_eq_of_mem hn4 he
            by_cases hen : e.name = n
            · rw [hen, hself4] at hfe
              rw [(Option.some.inj hfe)]
            · by_cases hef : e.name = f.name
              · rw [hef, hf4] at hfe
                have : e = fB := (Option.some.inj hfe).symm
                rw [this, hfBprio, hc4prio]
                omega
              · rw [hne4 e.name hen hef] at hfe
                have hes : e ∈ s.channels := findChannel_mem hfe
                have hea' : e.name ∈ s.activeNames := by
                  rcases (hact4 e.name).mp hea with h' | h'
                  · exact h'
                  · exact absurd h' hen
                have := getHighest_le hHs e hes hea'
                rw [hc4prio]
                omega
        refine ⟨hn4, hp4, ?_, ?_⟩
        · intro m hm
          rcases (hact4 m).mp hm with h' | rfl
          · exact hshape4.hasName.mpr (hsub m h')
          · exact hshape4.hasName.mpr ⟨c, findChannel_mem hf, hcn⟩
        · intro d hd
          unfold focusOk
          have hfd := findChannel_eq_of_mem hn4 hd
          by_cases hdn : d.name = n
          · rw [hdn, hself4] at hfd
            have hdc : d = c4 := (Option.some.inj hfd).symm
            rw [if_pos ((hact4 d.name).mpr (Or.inr hdn))]
            have hfg4 : isChannelForegrounded s4 d.name := by
              unfold isChannelForegrounded
              rw [hH4]
              simp [hc4name, hdn]
            rw [if_pos hfg4, hdc]
            exact hc4focus
          · by_cases hdf : d.name = f.name
            · rw [hdf, hf4] at hfd
              have hdc : d = fB := (Option.some.inj hfd).symm
              rw [if_pos ((hact4 d.name).mpr (Or.inl (hdf ▸ hfmem.2)))]
              have hnf4 : ¬isChannelForegrounded s4 d.name := by
                intro hcon
                unfold isChannelForegrounded at hcon
                rw [hH4] at hcon
                simp [hc4name] at hcon
                rw [hdf] at hcon
                exact hfn hcon.symm
              rw [if_neg hnf4, hdc]
              exact hfBfocus
            · rw [hne4 d.name hdn hdf] at hfd
              have hds : d ∈ s.channels := findChannel_mem hfd
              have hfocd := hfoc d hds
              unfold focusOk at hfocd
              by_cases hda : d.name ∈ s.activeNames
              · rw [if_pos hda] at hfocd
                have hnf : ¬isChannelForegrounded s d.name := by
                  intro hcon
                  unfold isChannelForegrounded at hcon
                  rw [hHs] at hcon
                  exact hdf (Option.some.inj hcon).symm
                rw [if_neg hnf] at hfocd
                rw [if_pos ((hact4 d.name).mpr (Or.inl hda))]
                have hnf4 : ¬isChannelForegrounded s4 d.name := by
                  intro hcon
                  unfold isChannelForegrounded at hcon
                  rw [hH4] at hcon
                  simp [hc4name] at hcon
                  exact hdn hcon.symm
                rw [if_neg hnf4]
                exact hfocd
              · rw [if_neg hda] at hfocd
                have hna4 : d.name ∉ s4.activeNames := by
                  rw [hact4 d.name]
                  rintro (h' | h')
                  · exact hda h'
                  · exact hdn h'
                rw [if_neg hna4]
                exact hfocd
      · rw [if_neg hlt]
        apply inv_notifyActivityTracker
        set s4 := setChannelFocus s3 n FocusState.BACKGROUND with hs4
        have hshape4 : ChanShape s s4 := hshape3.trans (chanShape_setChannelFocus s3 n _)
        have hn4 : namesOk s4 := hshape4.namesOk hn
        have hp4 : priosOk s4 := hshape4.priosOk hp
        have hact4 : ∀ m, m ∈ s4.activeNames ↔ m ∈ s.activeNames ∨ m = n := by
          intro m
          rw [hs4, setChannelFocus_activeNames]
          exact hmidact m
        have hself4 : findChannel s4.channels n =
            some ((cMid.setFocus FocusState.BACKGROUND).1) := by
          rw [hs4]
          exact findChannel_setChannelFocus_self hmidself
        have hne4 : ∀ m, m ≠ n → findChannel s4.channels m = findChannel s.channels m := by
          intro m hm
          rw [hs4, findChannel_setChannelFocus_ne hm]
          exact hmidne m hm
        set c4 : Channel := (cMid.setFocus FocusState.BACKGROUND).1 with hc4
        have hc4name : c4.name = n := by
          rw [hc4, Channel.setFocus_fst_name]; exact hcMidname
        have hc4prio : c4.priority = c.priority := by
          rw [hc4, Channel.setFocus_fst_priority]; exact hcMidprio
        have hc4focus : c4.focusState = FocusState.BACKGROUND :=
          Channel.setFocus_fst_focusState cMid _
        have hff4 : findChannel s4.channels f.name = some f := by
          rw [hne4 f.name hfn]
          exact hffind
        have hH4 : getHighestPriorityActiveChannel s4 = some f := by
          apply getHighest_eq hp4 (findChannel_mem hff4)
          · rw [hact4 f.name]
            exact Or.inl hfmem.2
          · intro e he hea
            have hfe := findChannel_eq_of_mem hn4 he
            by_cases hen : e.name = n
            · rw [hen, hself4] at hfe
              have : e = c4 := (Option.some.inj hfe).symm
              rw [this, hc4prio]
              omega
            · rw [hne4 e.name hen] at hfe
              have hes : e ∈ s.channels := findChannel_mem hfe
              have hea' : e.name ∈ s.activeNames := by
                rcases (hact4 e.name).mp hea with h' | h'
                · exact h'
                · exact absurd h' hen
              exact getHighest_le hHs e hes hea'
        refine ⟨hn4, hp4, ?_, ?_⟩
        · intro m hm
          rcases (hact4 m).mp hm with h' | rfl
          · exact hshape4.hasName.mpr (hsub m h')
          · exact hshape4.hasName.mpr ⟨c, findChannel_mem hf, hcn⟩
        · intro d hd
          unfold focusOk
          have hfd := findChannel_eq_of_mem hn4 hd
          by_cases hdn : d.name = n
          · rw [hdn, hself4] at hfd
            have hdc : d = c4 := (Option.some.inj hfd).symm
            rw [if_pos ((hact4 d.name).mpr (Or.inr hdn))]
            have hnf4 : ¬isChannelForegrounded s4 d.name := by
              intro hcon
              unfold isChannelForegrounded at hcon
              rw [hH4] at hcon
              have : f.name = d.name := by simpa using hcon
              rw [hdn] at this
              exact hfn this
            rw [if_neg hnf4, hdc]
            exact hc4focus
          · rw [hne4 d.name hdn] at hfd
            have hds : d ∈ s.channels := findChannel_mem hfd
            have hfocd := hfoc d hds
            unfold focusOk at hfocd
            by_cases hda : d.name ∈ s.activeNames
            · rw [if_pos hda] at hfocd
              rw [if_pos ((hact4 d.name).mpr (Or.inl hda))]
              have hiff : isChannelForegrounded s4 d.name ↔ isChannelForegrounded s d.name := by
                unfold isChannelForegrounded
                rw [hH4, hHs]
              by_cases hdf : isChannelForegrounded s d.name
              · rw [if_pos hdf] at hfocd
                rw [if_pos (hiff.mpr hdf)]
                exact hfocd
              · rw [if_neg hdf] at hfocd
                rw [if_neg (fun hcon => hdf (hiff.mp hcon))]
                exact hfocd
            · rw [if_neg hda] at hfocd
              have hna4 : d.name ∉ s4.activeNames := by
                rw [hact4 d.name]
                rintro (h' | h')
                · exact hda h'
                · exact hdn h'
              rw [if_neg hna4]
              exact hfocd

end AFML

namespace AFML

/-- The queued stop-foreground task preserves the invariant. -/
theorem inv_stopForegroundActivityHelper {s : FMState} {n iface : String}
    (h : Inv s) : Inv (stopForegroundActivityHelper s n iface) := by
  unfold stopForegroundActivityHelper
  cases hf : findChannel s.channels n with
  | none => exact h
  | some c =>
    dsimp only
    split
    · exact h
    · split
      · exact h
      · rw [erase_setFocus_comm]
        exact inv_notifyActivityTracker (promote_inv (inv_release_core h hf).1)

/-- Facts about the clearing loop of `stopAllActivitiesHelper`: it only
rewrites focus states (to NONE, for the listed names), leaving the active set
and all lookups of unlisted names unchanged. -/
theorem clearFold_facts (L : List String) : ∀ u : FMState,
    ChanShape u (L.foldl (fun st m => setChannelFocus st m FocusState.NONE) u) ∧
    (L.foldl (fun st m => setChannelFocus st m FocusState.NONE) u).activeNames =
      u.activeNames ∧
    (∀ m, m ∉ L →
      findChannel (L.foldl (fun st m => setChannelFocus st m FocusState.NONE) u).channels m =
        findChannel u.channels m) ∧
    (∀ m ∈ L, ∀ d,
      findChannel (L.foldl (fun st m => setChannelFocus st m FocusState.NONE) u).channels m =
        some d → d.focusState = FocusState.NONE) := by
  induction L with
  | nil =>
    intro u
    exact ⟨ChanShape.refl' rfl, rfl, fun m _ => rfl, fun m hm => by simp at hm⟩
  | cons x rest ih =>
    intro u
    obtain ⟨ihShape, ihAct, ihNe, ihNone⟩ := ih (setChannelFocus u x FocusState.NONE)
    simp only [List.foldl_cons]
    refine ⟨(chanShape_setChannelFocus u x _).trans ihShape, ?_, ?_, ?_⟩
    · rw [ihAct, setChannelFocus_activeNames]
    · intro m hm
      have hm1 : m ∉ rest := fun h' => hm (List.mem_cons_of_mem _ h')
      have hm2 : m ≠ x := fun h' => hm (h' ▸ List.mem_cons_self x rest)
      rw [ihNe m hm1, findChannel_setChannelFocus_ne hm2]
    · intro m hm d hfd
      by_cases hmr : m ∈ rest
      · exact ihNone m hmr d hfd
      · have hmx : m = x := by
          rcases List.mem_cons.mp hm with h' | h'
          · exact h'
          · exact absurd h' hmr
        subst hmx
        rw [ihNe m hmr] at hfd
        cases hfu : findChannel u.channels m with
        | none =>
          rw [setChannelFocus_of_none hfu, hfu] at hfd
          exact Option.noConfusion hfd
        | some c =>
          rw [findChannel_setChannelFocus_self hfu] at hfd
          rw [← Option.some.inj hfd]
          exact Channel.setFocus_fst_focusState c _

/-- Facts about the scanning loop of `stopAllActivitiesHelper`: it only
erases active-set entries (collecting exactly the erased names into the
to-clear list) and never touches channels or the logs. -/
theorem scanFold_facts (pairs : List (String × String)) :
    ∀ (u : FMState) (L0 : List String),
    (pairs.foldl stopAllStep (u, L0)).1.channels = u.channels ∧
    (pairs.foldl stopAllStep (u, L0)).1.activityUpdates = u.activityUpdates ∧
    (pairs.foldl stopAllStep (u, L0)).1.notifications = u.notifications ∧
    (pairs.foldl stopAllStep (u, L0)).1.trackerBatches = u.trackerBatches ∧
    (pairs.foldl stopAllStep (u, L0)).1.hasTracker = u.hasTracker ∧
    ∃ Lnew, (pairs.foldl stopAllStep (u, L0)).2 = L0 ++ Lnew ∧
      (∀ m, m ∈ (pairs.foldl stopAllStep (u, L0)).1.activeNames ↔
        m ∈ u.activeNames ∧ m ∉ Lnew) := by
  induction pairs with
  | nil =>
    intro u L0
    exact ⟨rfl, rfl, rfl, rfl, rfl, [], by simp, fun m => by simp⟩
  | cons p rest ih =>
    intro u L0
    simp only [List.foldl_cons]
    have hstep : stopAllStep (u, L0) p =
        (match findChannel u.channels p.1 with
         | none => (u, L0)
         | some c =>
           if c.interface = p.2 then (eraseActive u p.1, L0 ++ [p.1]) else (u, L0)) := rfl
    cases hf : findChannel u.channels p.1 with
    | none =>
      rw [hstep, hf]
      exact ih u L0
    | some c =>
      rw [hstep, hf]
      dsimp only
      by_cases hi : c.interface = p.2
      · rw [if_pos hi]
        obtain ⟨h1, h2, h3, h4, h5, Lnew, hL, hiff⟩ := ih (eraseActive u p.1) (L0 ++ [p.1])
        refine ⟨h1, h2, h3, h4, h5, p.1 :: Lnew, ?_, ?_⟩
        · rw [hL, List.append_assoc]
          rfl
        · intro m
          rw [hiff m, mem_eraseActive]
          constructor
          · rintro ⟨⟨hmu, hmp⟩, hml⟩
            exact ⟨hmu, by simp [hmp, hml]⟩
          · rintro ⟨hmu, hml⟩
            simp only [List.mem_cons, not_or] at hml
            exact ⟨⟨hmu, hml.1⟩, hml.2⟩
      · rw [if_neg hi]
        exact ih u L0

end AFML

namespace AFML

/-- The queued stop-all task preserves the invariant, for any snapshotted
(channel, interface) map. -/
theorem inv_stopAllActivitiesHelper {s : FMState} (h : Inv s)
    (pairs : List (String × String)) : Inv (stopAllActivitiesHelper s pairs) := by
  obtain ⟨hn, hp, hsub, hfoc⟩ := h
  unfold stopAllActivitiesHelper
  dsimp only
  obtain ⟨hch, _, _, _, _, Lnew, hL, hiff⟩ := scanFold_facts pairs s []
  set r := pairs.foldl stopAllStep (s, []) with hr
  have hLnew : r.2 = Lnew := by rw [hL]; simp
  rw [hLnew]
  obtain ⟨cShape, cAct, cNe, cNone⟩ := clearFold_facts Lnew r.1
  set t := Lnew.foldl (fun st m => setChannelFocus st m FocusState.NONE) r.1 with ht
  apply inv_notifyActivityTracker
  apply promote_inv
  have hshape : ChanShape s t := (ChanShape.refl' hch).trans cShape
  have hnT : namesOk t := hshape.namesOk hn
  have hpT : priosOk t := hshape.priosOk hp
  have hactT : ∀ m, m ∈ t.activeNames ↔ m ∈ s.activeNames ∧ m ∉ Lnew := by
    intro m
    rw [ht, cAct]
    exact hiff m
  have hlookup_ne : ∀ m, m ∉ Lnew →
      findChannel t.channels m = findChannel s.channels m := by
    intro m hm
    rw [ht, cNe m hm, hch]
  refine ⟨hnT, hpT, ?_, ?_⟩
  · intro m hm
    exact hshape.hasName.mpr (hsub m ((hactT m).mp hm).1)
  · intro d hd
    unfold preFocusOk
    have hfd := findChannel_eq_of_mem hnT hd
    by_cases hdL : d.name ∈ Lnew
    · have hdfoc : d.focusState = FocusState.NONE := cNone d.name hdL d hfd
      have hna : d.name ∉ t.activeNames := by
        intro hcon
        exact ((hactT d.name).mp hcon).2 hdL
      rw [if_neg hna]
      exact hdfoc
    · rw [hlookup_ne d.name hdL] at hfd
      have hds : d ∈ s.channels := findChannel_mem hfd
      have hfocd := hfoc d hds
      unfold focusOk at hfocd
      by_cases hda : d.name ∈ t.activeNames
      · have hdas : d.name ∈ s.activeNames := ((hactT d.name).mp hda).1
        rw [if_pos hda]
        rw [if_pos hdas] at hfocd
        by_cases hdf : isChannelForegrounded s d.name
        · rw [if_pos hdf] at hfocd
          unfold isChannelForegrounded at hdf
          cases hH0 : getHighestPriorityActiveChannel s with
          | none => rw [hH0] at hdf; simp at hdf
          | some h0 =>
            rw [hH0] at hdf
            have hname : h0.name = d.name := by simpa using hdf
            have hh0d : h0 = d := name_inj hn (getHighest_mem hH0).1 hds hname
            have hHT : getHighestPriorityActiveChannel t = some d := by
              apply getHighest_eq hpT hd hda
              intro e he hea
              have heL : e.name ∉ Lnew := ((hactT e.name).mp hea).2
              have hfe := findChannel_eq_of_mem hnT he
              rw [hlookup_ne e.name heL] at hfe
              have := getHighest_le hH0 e (findChannel_mem hfe)
                ((hactT e.name).mp hea).1
              rw [hh0d] at this
              exact this
            have hdfT : isChannelForegrounded t d.name := by
              unfold isChannelForegrounded
              rw [hHT]
              rfl
            rw [if_pos hdfT]
            exact Or.inl hfocd
        · rw [if_neg hdf] at hfocd
          by_cases hdfT : isChannelForegrounded t d.name
          · rw [if_pos hdfT]; exact Or.inr hfocd
          · rw [if_neg hdfT]; exact hfocd
      · have hna : d.name ∉ s.activeNames := by
          intro hcon
          exact hda ((hactT d.name).mpr ⟨hcon, hdL⟩)
        rw [if_neg hna] at hfocd
        rw [if_neg hda]
        exact hfocd

end AFML

namespace AFML

/-- Validity of a queued task: the synchronous fast path only enqueues an
acquire task for a registered channel (and the registry never changes), so an
acquire task's channel always exists when the worker runs it. -/
def taskOk (s : FMState) : Task → Prop
  | Task.acquire n _ _ => (findChannel s.channels n).isSome
  | Task.release _ _ => True
  | Task.stopForeground _ _ => True
  | Task.stopAll _ => True

instance (s : FMState) (t : Task) : Decidable (taskOk s t) := by
  cases t <;> (unfold taskOk; infer_instance)

/-- Every queued task preserves the arbitration invariant. -/
theorem inv_runTask {s : FMState} (t : Task) (h : Inv s) (ht : taskOk s t) :
    Inv (runTask s t) := by
  cases t with
  | acquire n obs iface =>
    unfold taskOk at ht
    obtain ⟨c, hc⟩ := Option.isSome_iff_exists.mp ht
    exact inv_acquireChannelHelper h hc
  | release n obs => exact inv_releaseChannelHelper h
  | stopForeground n iface => exact inv_stopForegroundActivityHelper h
  | stopAll pairs => exact inv_stopAllActivitiesHelper h pairs

/-- The channels currently holding FOREGROUND focus. -/
def foregroundChannels (s : FMState) : List Channel :=
  s.channels.filter (fun c => c.focusState = FocusState.FOREGROUND)

theorem mem_foregroundChannels {s : FMState} {c : Channel} :
    c ∈ foregroundChannels s ↔ c ∈ s.channels ∧ c.focusState = FocusState.FOREGROUND := by
  simp [foregroundChannels, List.mem_filter]

/-- Under the invariant, a FOREGROUND channel is the highest-priority active
channel. -/
theorem foreground_is_highest {s : FMState} (h : Inv s) {c : Channel}
    (hc : c ∈ foregroundChannels s) :
    c.name ∈ s.activeNames ∧
      ∀ d ∈ s.channels, d.name ∈ s.activeNames → c.priority ≤ d.priority := by
  obtain ⟨hn, hp, hsub, hfoc⟩ := h
  obtain ⟨hcs, hcf⟩ := mem_foregroundChannels.mp hc
  have hfocc := hfoc c hcs
  unfold focusOk at hfocc
  by_cases hac : c.name ∈ s.activeNames
  · refine ⟨hac, ?_⟩
    rw [if_pos hac] at hfocc
    by_cases hif : isChannelForegrounded s c.name
    · unfold isChannelForegrounded at hif
      cases hH0 : getHighestPriorityActiveChannel s with
      | none => rw [hH0] at hif; simp at hif
      | some h0 =>
        rw [hH0] at hif
        have hname : h0.name = c.name := by simpa using hif
        have hh0c : h0 = c := name_inj hn (getHighest_mem hH0).1 hcs hname
        intro d hd hda
        have := getHighest_le hH0 d hd hda
        rw [hh0c] at this
        exact this
    · rw [if_neg hif] at hfocc
      rw [hcf] at hfocc
      exact absurd hfocc.symm (by simp)
  · rw [if_neg hac] at hfocc
    rw [hcf] at hfocc
    exact absurd hfocc.symm (by simp)

/-- Under the invariant: at most one FOREGROUND channel, exactly one iff the
active set is non-empty. -/
theorem foreground_count {s : FMState} (h : Inv s) :
    (foregroundChannels s).length ≤ 1 ∧
      ((foregroundChannels s).length = 1 ↔ s.activeNames ≠ []) := by
  obtain ⟨hn, hp, hsub, hfoc⟩ := h
  have huniq : ∀ a ∈ foregroundChannels s, ∀ b ∈ foregroundChannels s, a = b := by
    intro a ha b hb
    obtain ⟨has, haf⟩ := mem_foregroundChannels.mp ha
    obtain ⟨hbs, hbf⟩ := mem_foregroundChannels.mp hb
    have hfa := hfoc a has
    have hfb := hfoc b hbs
    unfold focusOk at hfa hfb
    have hga : isChannelForegrounded s a.name := by
      by_cases hac : a.name ∈ s.activeNames
      · rw [if_pos hac] at hfa
        by_cases hif : isChannelForegrounded s a.name
        · exact hif
        · rw [if_neg hif, haf] at hfa; exact absurd hfa.symm (by simp)
      · rw [if_neg hac, haf] at hfa; exact absurd hfa.symm (by simp)
    have hgb : isChannelForegrounded s b.name := by
      by_cases hbc : b.name ∈ s.activeNames
      · rw [if_pos hbc] at hfb
        by_cases hif : isChannelForegrounded s b.name
        · exact hif
        · rw [if_neg hif, hbf] at hfb; exact absurd hfb.symm (by simp)
      · rw [if_neg hbc, hbf] at hfb; exact absurd hfb.symm (by simp)
    unfold isChannelForegrounded at hga hgb
    have : some a.name = some b.name := hga.symm.trans hgb
    exact name_inj hn has hbs (Option.some.inj this)
  have hnd : (foregroundChannels s).Nodup :=
    List.Nodup.sublist (List.filter_sublist s.channels)
      (List.Nodup.of_map Channel.name hn)
  have hlen : (foregroundChannels s).length ≤ 1 := by
    cases hl : foregroundChannels s with
    | nil => simp
    | cons a tail =>
      cases htl : tail with
      | nil => simp
      | cons b tail2 =>
        exfalso
        have hab : a = b := by
          apply huniq
          · rw [hl]; exact List.mem_cons_self a tail
          · rw [hl, htl]
            exact List.mem_cons_of_mem _ (List.mem_cons_self b tail2)
        rw [hl, htl] at hnd
        rw [List.nodup_cons] at hnd
        exact hnd.1 (hab ▸ List.mem_cons_self b tail2)
  refine ⟨hlen, ?_, ?_⟩
  · intro h1 hnil
    have : foregroundChannels s ≠ [] := by
      intro hcon
      rw [hcon] at h1
      simp at h1
    obtain ⟨a, ha⟩ : ∃ a, a ∈ foregroundChannels s := by
      cases hl : foregroundChannels s with
      | nil => exact absurd hl this
      | cons a tail =>
        refine ⟨a, ?_⟩
        exact List.mem_cons_self a tail
    have := (foreground_is_highest ⟨hn, hp, hsub, hfoc⟩ ha).1
    rw [hnil] at this
    simp at this
  · intro hne
    obtain ⟨h0, hH0⟩ := getHighest_isSome hsub hne
    have hm0 := getHighest_mem hH0
    have hfoch0 := hfoc h0 hm0.1
    unfold focusOk at hfoch0
    rw [if_pos hm0.2] at hfoch0
    have : isChannelForegrounded s h0.name := by
      unfold isChannelForegrounded; rw [hH0]; rfl
    rw [if_pos this] at hfoch0
    have hmem : h0 ∈ foregroundChannels s := mem_foregroundChannels.mpr ⟨hm0.1, hfoch0⟩
    have hpos : 0 < (foregroundChannels s).length := List.length_pos.mpr (by
      intro hcon
      rw [hcon] at hmem
      simp at hmem)
    omega

end AFML

namespace AFML

theorem focusOf_notify (s : FMState) (m : String) :
    focusOf (notifyActivityTracker s) m = focusOf s m := rfl

/-- C1: after every completed arbitration task (acquire, release,
stop-foreground, stop-all) run from an invariant state — with the acquire
target registered, which the synchronous fast path guarantees — at most one
channel has focusState FOREGROUND; exactly one channel is FOREGROUND iff the
active set is non-empty; and every FOREGROUND channel is the
highest-priority (numerically smallest priority value) member of the active
set.  The full invariant I1–I3 is preserved. -/
theorem C1_foreground_invariant (s : FMState) (t : Task) (h : Inv s)
    (ht : taskOk s t) :
    Inv (runTask s t) ∧
    (foregroundChannels (runTask s t)).length ≤ 1 ∧
    ((foregroundChannels (runTask s t)).length = 1 ↔ (runTask s t).activeNames ≠ []) ∧
    (∀ c ∈ foregroundChannels (runTask s t),
      c.name ∈ (runTask s t).activeNames ∧
      ∀ d ∈ (runTask s t).channels, d.name ∈ (runTask s t).activeNames →
        c.priority ≤ d.priority) := by
  have hinv := inv_runTask t h ht
  exact ⟨hinv, (foreground_count hinv).1, (foreground_count hinv).2,
    fun c hc => foreground_is_highest hinv hc⟩

theorem C1_foreground_invariant_witness :
    Inv (runTask (mkFocusManager [⟨"A", 1⟩, ⟨"B", 2⟩] true) (Task.acquire "A" 5 "i")) :=
  (C1_foreground_invariant (mkFocusManager [⟨"A", 1⟩, ⟨"B", 2⟩] true)
    (Task.acquire "A" 5 "i") (by decide) (by decide)).1

/-- C2: resolution of an acquire task on target `n`, with `F` the
highest-priority active channel snapshotted after the target is forced to
NONE: absent `F` or `F = target` → target ends FOREGROUND; target
strictly-higher priority → `F` ends BACKGROUND and target FOREGROUND;
otherwise target ends BACKGROUND and `F`'s focus state is unchanged. -/
theorem C2_acquire_resolution (s : FMState) (n : String) (obs : Nat)
    (iface : String) (c : Channel) (hn : namesOk s)
    (hf : findChannel s.channels n = some c) :
    (getHighestPriorityActiveChannel (setChannelFocus s n FocusState.NONE) = none →
      focusOf (acquireChannelHelper s n obs iface) n = some FocusState.FOREGROUND) ∧
    (∀ f, getHighestPriorityActiveChannel (setChannelFocus s n FocusState.NONE) = some f →
      (f.name = n →
        focusOf (acquireChannelHelper s n obs iface) n = some FocusState.FOREGROUND) ∧
      (f.name ≠ n → c.priority < f.priority →
        focusOf (acquireChannelHelper s n obs iface) n = some FocusState.FOREGROUND ∧
        focusOf (acquireChannelHelper s n obs iface) f.name = some FocusState.BACKGROUND) ∧
      (f.name ≠ n → ¬c.priority < f.priority →
        focusOf (acquireChannelHelper s n obs iface) n = some FocusState.BACKGROUND ∧
        focusOf (acquireChannelHelper s n obs iface) f.name = focusOf s f.name)) := by
  have hmidself := acquireMid_lookup_self hf obs iface
  have hmidne : ∀ m, m ≠ n →
      findChannel (setChannelObserver
        (insertActive (setChannelInterface (setChannelFocus s n FocusState.NONE) n iface) n)
        n (some obs)).channels m = findChannel s.channels m :=
    fun m hm => acquireMid_lookup_ne obs iface hm
  constructor
  · intro hfg
    unfold acquireChannelHelper
    dsimp only
    rw [hfg]
    rw [focusOf_notify]
    exact focusOf_setChannelFocus hmidself
  · intro f hfg
    have hffind : f.name ≠ n → findChannel s.channels f.name = some f := by
      intro hfn
      have hm1 := getHighest_mem hfg
      have hn1 : namesOk (setChannelFocus s n FocusState.NONE) :=
        (chanShape_setChannelFocus s n FocusState.NONE).namesOk hn
      have hlk := findChannel_eq_of_mem hn1 hm1.1
      rw [findChannel_setChannelFocus_ne hfn] at hlk
      exact hlk
    refine ⟨?_, ?_, ?_⟩
    · intro hfn
      unfold acquireChannelHelper
      dsimp only
      rw [hfg]
      dsimp only
      rw [if_pos hfn, focusOf_notify]
      exact focusOf_setChannelFocus hmidself
    · intro hfn hlt
      unfold acquireChannelHelper
      dsimp only
      rw [hfg]
      dsimp only
      rw [if_neg hfn]
      simp only [priorityOf_eq hf]
      rw [if_pos hlt]
      constructor
      · rw [focusOf_notify]
        apply focusOf_setChannelFocus
        rw [findChannel_setChannelFocus_ne (fun hcon => hfn hcon.symm)]
        exact hmidself
      · rw [focusOf_notify]
        unfold focusOf
        rw [findChannel_setChannelFocus_ne hfn]
        have hf3 : findChannel (setChannelObserver
            (insertActive (setChannelInterface (setChannelFocus s n FocusState.NONE) n iface) n)
            n (some obs)).channels f.name = some f := by
          rw [hmidne f.name hfn]
          exact hffind hfn
        rw [findChannel_setChannelFocus_self hf3]
        simp [Channel.setFocus_fst_focusState]
    · intro hfn hlt
      unfold acquireChannelHelper
      dsimp only
      rw [hfg]
      dsimp only
      rw [if_neg hfn]
      simp only [priorityOf_eq hf]
      rw [if_neg hlt]
      constructor
      · rw [focusOf_notify]
        exact focusOf_setChannelFocus hmidself
      · rw [focusOf_notify]
        unfold focusOf
        rw [findChannel_setChannelFocus_ne hfn, hmidne f.name hfn]

theorem C2_acquire_resolution_witness :
    focusOf (acquireChannelHelper (mkFocusManager [⟨"A", 1⟩] true) "A" 5 "i") "A" =
      some FocusState.FOREGROUND :=
  (C2_acquire_resolution (mkFocusManager [⟨"A", 1⟩] true) "A" 5 "i"
    ⟨"A", 1, FocusState.NONE, "", none⟩ (by decide) (by decide)).1 (by decide)

end AFML

namespace AFML

/-! ### Further consequences of the invariant -/

theorem prio_inj {l : List Channel} (hp : (l.map Channel.priority).Nodup)
    {c d : Channel} (hc : c ∈ l) (hd : d ∈ l) (h : c.priority = d.priority) :
    c = d :=
  List.inj_on_of_nodup_map hp hc hd h

/-- Under the invariant, the foregrounded channel holds FOREGROUND focus. -/
theorem foregrounded_imp_fg {s : FMState} (h : Inv s) {c : Channel}
    (hc : c ∈ s.channels) (hcf : isChannelForegrounded s c.name) :
    c.focusState = FocusState.FOREGROUND := by
  obtain ⟨hn, hp, hsub, hfoc⟩ := h
  unfold isChannelForegrounded at hcf
  cases hH0 : getHighestPriorityActiveChannel s with
  | none => rw [hH0] at hcf; simp at hcf
  | some h0 =>
    rw [hH0] at hcf
    have hname : h0.name = c.name := by simpa using hcf
    have hh0c : h0 = c := name_inj hn (getHighest_mem hH0).1 hc hname
    have hfocc := hfoc c hc
    unfold focusOk at hfocc
    rw [if_pos (hh0c ▸ (getHighest_mem hH0).2)] at hfocc
    rw [if_pos (by unfold isChannelForegrounded; rw [hH0]; simpa using hcf)] at hfocc
    exact hfocc

/-- Under the invariant, a channel holding FOREGROUND focus is the
foregrounded channel. -/
theorem fg_imp_foregrounded {s : FMState} (h : Inv s) {c : Channel}
    (hc : c ∈ s.channels) (hcf : c.focusState = FocusState.FOREGROUND) :
    isChannelForegrounded s c.name := by
  obtain ⟨hn, hp, hsub, hfoc⟩ := h
  have hfocc := hfoc c hc
  unfold focusOk at hfocc
  by_cases hac : c.name ∈ s.activeNames
  · rw [if_pos hac] at hfocc
    by_cases hif : isChannelForegrounded s c.name
    · exact hif
    · rw [if_neg hif, hcf] at hfocc
      exact absurd hfocc.symm (by simp)
  · rw [if_neg hac, hcf] at hfocc
    exact absurd hfocc.symm (by simp)

/-- Under the invariant, FOREGROUND focus characterizes exactly the
highest-priority active channel (if the channel is active and beats every
active channel it is FOREGROUND, and conversely). -/
theorem inv_fg_iff {s : FMState} (h : Inv s) {d : Channel} (hd : d ∈ s.channels) :
    d.focusState = FocusState.FOREGROUND ↔
      (d.name ∈ s.activeNames ∧
        ∀ e ∈ s.channels, e.name ∈ s.activeNames → d.priority ≤ e.priority) := by
  constructor
  · intro hdf
    exact foreground_is_highest h (mem_foregroundChannels.mpr ⟨hd, hdf⟩)
  · rintro ⟨hda, hmin⟩
    obtain ⟨hn, hp, hsub, hfoc⟩ := h
    obtain ⟨h0, hH0⟩ := getHighest_isSome hsub (by
      intro hnil; rw [hnil] at hda; simp at hda)
    have hm0 := getHighest_mem hH0
    have h1 : h0.priority ≤ d.priority := getHighest_le hH0 d hd hda
    have h2 : d.priority ≤ h0.priority := hmin h0 hm0.1 hm0.2
    have : d = h0 := prio_inj hp hd hm0.1 (by omega)
    apply foregrounded_imp_fg ⟨hn, hp, hsub, hfoc⟩ hd
    unfold isChannelForegrounded
    rw [hH0, this]
    rfl

theorem getHighest_active_nil {s : FMState} (h : s.activeNames = []) :
    getHighestPriorityActiveChannel s = none := by
  unfold getHighestPriorityActiveChannel
  rw [h]
  have : activeChans s.channels [] = [] := by
    simp [activeChans]
  rw [this]
  rfl

theorem foregroundHighest_activeNames (s : FMState) :
    (foregroundHighestPriorityActiveChannel s).activeNames = s.activeNames := by
  unfold foregroundHighestPriorityActiveChannel
  cases getHighestPriorityActiveChannel s with
  | none => rfl
  | some c => exact setChannelFocus_activeNames s c.name _

theorem findChannel_foregroundHighest_notActive {s : FMState} {m : String}
    (hm : m ∉ s.activeNames) :
    findChannel (foregroundHighestPriorityActiveChannel s).channels m =
      findChannel s.channels m := by
  unfold foregroundHighestPriorityActiveChannel
  cases hH : getHighestPriorityActiveChannel s with
  | none => rfl
  | some c =>
    have hne : m ≠ c.name := by
      intro hcon
      exact hm (hcon ▸ (getHighest_mem hH).2)
    exact findChannel_setChannelFocus_ne hne

theorem Channel.setFocus_none_observer {c : Channel}
    (he : c.focusState ≠ FocusState.NONE) :
    ((c.setFocus FocusState.NONE).1).observer = none := by
  rw [Channel.setFocus_of_ne he]
  simp

theorem Channel.setFocus_keep_observer {c : Channel} {fs : FocusState}
    (hfs : fs ≠ FocusState.NONE) :
    ((c.setFocus fs).1).observer = c.observer := by
  unfold Channel.setFocus
  split
  · rfl
  · simp [hfs]

/-! ### C3: unauthorized release -/

/-- C3: a release task whose observer does not currently own the target
channel resolves false and mutates nothing at all — the entire state
(active set, every channel's focus state, owner interface and attached
observer, and both notification logs) is returned unchanged. -/
theorem C3_release_unauthorized (s : FMState) (n : String) (obs : Nat)
    (c : Channel) (hf : findChannel s.channels n = some c)
    (hown : ¬c.doesObserverOwnChannel obs) :
    releaseChannelHelper s n obs = (s, false) := by
  unfold releaseChannelHelper
  rw [hf]
  dsimp only
  rw [if_neg hown]

theorem C3_release_unauthorized_witness :
    releaseChannelHelper (mkFocusManager [⟨"A", 1⟩] true) "A" 5 =
      (mkFocusManager [⟨"A", 1⟩] true, false) :=
  C3_release_unauthorized (mkFocusManager [⟨"A", 1⟩] true) "A" 5
    ⟨"A", 1, FocusState.NONE, "", none⟩ (by decide) (by decide)

end AFML

namespace AFML

/-- C4: a release by the owning observer of the foreground channel resolves
true, removes the channel from the active set and sets it to NONE, and after
the task FOREGROUND focus characterizes exactly the highest-priority
remaining active channel — so the best remaining active channel (if any) is
promoted, and no channel is FOREGROUND when the active set empties. -/
theorem C4_release_foreground (s : FMState) (n : String) (obs : Nat)
    (c : Channel) (h : Inv s) (hf : findChannel s.channels n = some c)
    (hown : c.doesObserverOwnChannel obs) (hfg : isChannelForegrounded s n) :
    (releaseChannelHelper s n obs).2 = true ∧
    (∀ m, m ∈ (releaseChannelHelper s n obs).1.activeNames ↔
      m ∈ s.activeNames ∧ m ≠ n) ∧
    focusOf (releaseChannelHelper s n obs).1 n = some FocusState.NONE ∧
    (∀ d ∈ (releaseChannelHelper s n obs).1.channels,
      d.focusState = FocusState.FOREGROUND ↔
        (d.name ∈ (releaseChannelHelper s n obs).1.activeNames ∧
          ∀ e ∈ (releaseChannelHelper s n obs).1.channels,
            e.name ∈ (releaseChannelHelper s n obs).1.activeNames →
              d.priority ≤ e.priority)) := by
  have hinv' : Inv (releaseChannelHelper s n obs).1 := inv_releaseChannelHelper h
  have hrun : releaseChannelHelper s n obs =
      (notifyActivityTracker (foregroundHighestPriorityActiveChannel
        (setChannelFocus (eraseActive s n) n FocusState.NONE)), true) := by
    unfold releaseChannelHelper
    rw [hf]
    dsimp only
    rw [if_pos hown, if_pos hfg]
  have hfe : findChannel (eraseActive s n).channels n = some c := hf
  refine ⟨by rw [hrun], ?_, ?_, fun d hd => inv_fg_iff hinv' hd⟩
  · intro m
    rw [hrun]
    show m ∈ (foregroundHighestPriorityActiveChannel _).activeNames ↔ _
    rw [foregroundHighest_activeNames, setChannelFocus_activeNames]
    exact mem_eraseActive
  · rw [hrun]
    show focusOf (notifyActivityTracker _) n = _
    rw [focusOf_notify]
    have hna : n ∉ (setChannelFocus (eraseActive s n) n FocusState.NONE).activeNames := by
      rw [setChannelFocus_activeNames]
      intro hcon
      exact (mem_eraseActive.mp hcon).2 rfl
    unfold focusOf
    rw [findChannel_foregroundHighest_notActive hna,
      findChannel_setChannelFocus_self hfe]
    simp [Channel.setFocus_fst_focusState]

theorem C4_release_foreground_witness :
    (releaseChannelHelper
      (runTask (mkFocusManager [⟨"A", 1⟩, ⟨"B", 2⟩] true) (Task.acquire "A" 5 "i"))
      "A" 5).2 = true :=
  (C4_release_foreground
    (runTask (mkFocusManager [⟨"A", 1⟩, ⟨"B", 2⟩] true) (Task.acquire "A" 5 "i"))
    "A" 5 ⟨"A", 1, FocusState.FOREGROUND, "i", some 5⟩
    (by decide) (by decide) (by decide) (by decide)).1

end AFML

namespace AFML

/-- Registry construction keeps names and priorities pairwise distinct,
whatever the configuration list. -/
theorem buildChannels_core : ∀ (cfgs : List ChannelConfiguration) (acc : List Channel),
    (acc.map Channel.name).Nodup → (acc.map Channel.priority).Nodup →
    ((cfgs.foldl buildStep acc).map Channel.name).Nodup ∧
      ((cfgs.foldl buildStep acc).map Channel.priority).Nodup := by
  intro cfgs
  induction cfgs with
  | nil => intro acc h1 h2; exact ⟨h1, h2⟩
  | cons cfg rest ih =>
    intro acc h1 h2
    simp only [List.foldl_cons]
    unfold buildStep
    by_cases hname : acc.any (fun c => c.name = cfg.name) = true
    · rw [if_pos hname]; exact ih acc h1 h2
    · rw [if_neg hname]
      by_cases hprio : acc.any (fun c => c.priority = cfg.priority) = true
      · rw [if_pos hprio]; exact ih acc h1 h2
      · rw [if_neg hprio]
        apply ih
        · rw [List.map_append, List.nodup_append]
          refine ⟨h1, by simp, ?_⟩
          intro a ha hb
          simp at hb
          obtain ⟨d, hd, hdn⟩ := List.mem_map.mp ha
          apply hname
          rw [List.any_eq_true]
          exact ⟨d, hd, by simp [hdn, hb]⟩
        · rw [List.map_append, List.nodup_append]
          refine ⟨h2, by simp, ?_⟩
          intro a ha hb
          simp at hb
          obtain ⟨d, hd, hdn⟩ := List.mem_map.mp ha
          apply hprio
          rw [List.any_eq_true]
          exact ⟨d, hd, by simp [hdn, hb]⟩

/-- C6: construction processes the ordered configuration list one entry at a
time, dropping exactly the entries whose name or priority already occurs
among the earlier retained entries and keeping the rest (as a total
function, it never aborts); consequently registry names and priorities are
always pairwise distinct, and construction from [("A",1), ("B",1)] yields a
registry holding exactly the channel "A". -/
theorem C6_construction :
    (∀ (cfgs : List ChannelConfiguration) (cfg : ChannelConfiguration),
      buildChannels (cfgs ++ [cfg]) = buildStep (buildChannels cfgs) cfg) ∧
    (∀ cfgs : List ChannelConfiguration,
      ((buildChannels cfgs).map Channel.name).Nodup ∧
        ((buildChannels cfgs).map Channel.priority).Nodup) ∧
    (mkFocusManager [⟨"A", 1⟩, ⟨"B", 1⟩] true).channels.map Channel.name = ["A"] := by
  refine ⟨?_, ?_, by decide⟩
  · intro cfgs cfg
    unfold buildChannels
    rw [List.foldl_append]
    rfl
  · intro cfgs
    exact buildChannels_core cfgs [] (by simp) (by simp)

/-- C7: the synchronous fast paths — an unknown channel name makes
`acquireChannel` return false and `releaseChannel` return an
already-resolved false future, neither queueing a task; a registered name
makes `acquireChannel` return true immediately with a task queued. -/
theorem C7_sync_validation (s : FMState) (n : String) (obs : Nat) (iface : String) :
    (findChannel s.channels n = none →
      acquireChannel s n obs iface = (false, none) ∧
      releaseChannel s n obs = (none, some false)) ∧
    (∀ c, findChannel s.channels n = some c →
      acquireChannel s n obs iface = (true, some (Task.acquire n obs iface)) ∧
      releaseChannel s n obs = (some (Task.release n obs), none)) := by
  constructor
  · intro h
    unfold acquireChannel releaseChannel
    rw [h]
    exact ⟨rfl, rfl⟩
  · intro c h
    unfold acquireChannel releaseChannel
    rw [h]
    exact ⟨rfl, rfl⟩

theorem C7_sync_validation_witness :
    acquireChannel (mkFocusManager [⟨"A", 1⟩] true) "B" 5 "i" = (false, none) ∧
    acquireChannel (mkFocusManager [⟨"A", 1⟩] true) "A" 5 "i" =
      (true, some (Task.acquire "A" 5 "i")) :=
  ⟨((C7_sync_validation (mkFocusManager [⟨"A", 1⟩] true) "B" 5 "i").1 (by decide)).1,
   ((C7_sync_validation (mkFocusManager [⟨"A", 1⟩] true) "A" 5 "i").2
     ⟨"A", 1, FocusState.NONE, "", none⟩ (by decide)).1⟩

end AFML

namespace AFML

/-- C8: `stopForegroundActivity` with no active channel enqueues nothing;
the queued stop task is a complete no-op (the whole state is returned
unchanged) when the snapshotted interface no longer matches or the channel
has no attached observer; otherwise it sets the channel to NONE, removes it
from the active set, and leaves FOREGROUND exactly on the highest-priority
remaining active channel. -/
theorem C8_stop_foreground (s : FMState) :
    (s.activeNames = [] → stopForegroundActivity s = none) ∧
    (∀ n iface c, findChannel s.channels n = some c →
      (iface ≠ c.interface ∨ c.observer = none) →
      stopForegroundActivityHelper s n iface = s) ∧
    (Inv s → ∀ n iface c, findChannel s.channels n = some c →
      iface = c.interface → c.observer ≠ none →
      (∀ m, m ∈ (stopForegroundActivityHelper s n iface).activeNames ↔
        m ∈ s.activeNames ∧ m ≠ n) ∧
      focusOf (stopForegroundActivityHelper s n iface) n = some FocusState.NONE ∧
      (∀ d ∈ (stopForegroundActivityHelper s n iface).channels,
        d.focusState = FocusState.FOREGROUND ↔
          (d.name ∈ (stopForegroundActivityHelper s n iface).activeNames ∧
            ∀ e ∈ (stopForegroundActivityHelper s n iface).channels,
              e.name ∈ (stopForegroundActivityHelper s n iface).activeNames →
                d.priority ≤ e.priority))) := by
  refine ⟨?_, ?_, ?_⟩
  · intro h0
    unfold stopForegroundActivity
    rw [getHighest_active_nil h0]
  · intro n iface c hf hcond
    unfold stopForegroundActivityHelper
    rw [hf]
    dsimp only
    rcases hcond with h1 | h2
    · rw [if_pos h1]
    · by_cases h1 : iface ≠ c.interface
      · rw [if_pos h1]
      · rw [if_neg h1,
          if_pos (show ¬c.hasObserver by unfold Channel.hasObserver; simpa using h2)]
  · intro hInv n iface c hf hif hobs
    have hrun : stopForegroundActivityHelper s n iface =
        notifyActivityTracker (foregroundHighestPriorityActiveChannel
          (eraseActive (setChannelFocus s n FocusState.NONE) n)) := by
      unfold stopForegroundActivityHelper
      rw [hf]
      dsimp only
      rw [if_neg (fun hcon => hcon hif),
        if_neg (show ¬¬c.hasObserver from fun hcon => hcon hobs)]
    have hna : n ∉ (eraseActive (setChannelFocus s n FocusState.NONE) n).activeNames := by
      intro hcon
      exact (mem_eraseActive.mp hcon).2 rfl
    refine ⟨?_, ?_, ?_⟩
    · intro m
      rw [hrun]
      show m ∈ (foregroundHighestPriorityActiveChannel _).activeNames ↔ _
      rw [foregroundHighest_activeNames, mem_eraseActive, setChannelFocus_activeNames]
    · rw [hrun]
      show focusOf (notifyActivityTracker _) n = _
      rw [focusOf_notify]
      unfold focusOf
      rw [findChannel_foregroundHighest_notActive hna]
      have : findChannel (eraseActive (setChannelFocus s n FocusState.NONE) n).channels n =
          some ((c.setFocus FocusState.NONE).1) :=
        findChannel_setChannelFocus_self hf
      rw [this]
      simp [Channel.setFocus_fst_focusState]
    · intro d hd
      exact inv_fg_iff (inv_stopForegroundActivityHelper hInv) hd

theorem C8_stop_foreground_witness :
    stopForegroundActivity (mkFocusManager [⟨"A", 1⟩] true) = none ∧
    focusOf (stopForegroundActivityHelper
      (runTask (mkFocusManager [⟨"A", 1⟩, ⟨"B", 2⟩] true) (Task.acquire "A" 5 "i"))
      "A" "i") "A" = some FocusState.NONE :=
  ⟨(C8_stop_foreground (mkFocusManager [⟨"A", 1⟩] true)).1 (by decide),
   ((C8_stop_foreground
      (runTask (mkFocusManager [⟨"A", 1⟩, ⟨"B", 2⟩] true) (Task.acquire "A" 5 "i"))).2.2
      (by decide) "A" "i" ⟨"A", 1, FocusState.FOREGROUND, "i", some 5⟩
      (by decide) (by decide) (by decide)).2.1⟩

/-- C9: from an invariant state whose foreground channel `C` is owned by
observer `o`, `stopForegroundActivity` snapshots `(C, C.interface)`;
executing the stop task and then the release task of `C` by `o` makes the
release resolve false and mutate nothing — the stop cleared the attached
observer, so `o` no longer owns `C`. -/
theorem C9_stop_then_release (s : FMState) (C : Channel) (o : Nat)
    (h : Inv s) (hH : getHighestPriorityActiveChannel s = some C)
    (hobs : C.observer = some o) :
    stopForegroundActivity s = some (Task.stopForeground C.name C.interface) ∧
    (releaseChannelHelper (stopForegroundActivityHelper s C.name C.interface)
      C.name o).2 = false ∧
    (releaseChannelHelper (stopForegroundActivityHelper s C.name C.interface)
      C.name o).1 = stopForegroundActivityHelper s C.name C.interface := by
  have hn : namesOk s := h.1
  have hmem := getHighest_mem hH
  have hfind : findChannel s.channels C.name = some C := findChannel_eq_of_mem hn hmem.1
  have hCfg : C.focusState = FocusState.FOREGROUND :=
    foregrounded_imp_fg h hmem.1 (by unfold isChannelForegrounded; rw [hH]; rfl)
  have hhasObs : C.hasObserver := by
    unfold Channel.hasObserver
    rw [hobs]
    simp
  have hrun : stopForegroundActivityHelper s C.name C.interface =
      notifyActivityTracker (foregroundHighestPriorityActiveChannel
        (eraseActive (setChannelFocus s C.name FocusState.NONE) C.name)) := by
    unfold stopForegroundActivityHelper
    rw [hfind]
    dsimp only
    rw [if_neg (fun hcon => hcon rfl),
      if_neg (show ¬¬C.hasObserver from fun hcon => hcon hhasObs)]
  have hna : C.name ∉
      (eraseActive (setChannelFocus s C.name FocusState.NONE) C.name).activeNames := by
    intro hcon
    exact (mem_eraseActive.mp hcon).2 rfl
  have hfind2 : findChannel
      (eraseActive (setChannelFocus s C.name FocusState.NONE) C.name).channels C.name =
      some ((C.setFocus FocusState.NONE).1) :=
    findChannel_setChannelFocus_self hfind
  have hfind' : findChannel (stopForegroundActivityHelper s C.name C.interface).channels
      C.name = some ((C.setFocus FocusState.NONE).1) := by
    rw [hrun]
    show findChannel (foregroundHighestPriorityActiveChannel _).channels C.name = _
    rw [findChannel_foregroundHighest_notActive hna]
    exact hfind2
  have hobs' : ((C.setFocus FocusState.NONE).1).observer = none :=
    Channel.setFocus_none_observer (by rw [hCfg]; simp)
  have hnotown : ¬((C.setFocus FocusState.NONE).1).doesObserverOwnChannel o := by
    unfold Channel.doesObserverOwnChannel
    rw [hobs']
    simp
  have hrel : releaseChannelHelper (stopForegroundActivityHelper s C.name C.interface)
      C.name o = (stopForegroundActivityHelper s C.name C.interface, false) := by
    unfold releaseChannelHelper
    rw [hfind']
    dsimp only
    rw [if_neg hnotown]
  refine ⟨?_, by rw [hrel], by rw [hrel]⟩
  unfold stopForegroundActivity
  rw [hH]

theorem C9_stop_then_release_witness :
    (releaseChannelHelper (stopForegroundActivityHelper
      (runTask (mkFocusManager [⟨"A", 1⟩, ⟨"B", 2⟩] true) (Task.acquire "A" 5 "i"))
      "A" "i") "A" 5).2 = false :=
  (C9_stop_then_release
    (runTask (mkFocusManager [⟨"A", 1⟩, ⟨"B", 2⟩] true) (Task.acquire "A" 5 "i"))
    ⟨"A", 1, FocusState.FOREGROUND, "i", some 5⟩ 5
    (by decide) (by decide) (by decide)).2.1

end AFML

namespace AFML

theorem insertActive_trackerBatches (s : FMState) (n : String) :
    (insertActive s n).trackerBatches = s.trackerBatches := by
  unfold insertActive
  split <;> rfl

theorem foregroundHighest_trackerBatches (s : FMState) :
    (foregroundHighestPriorityActiveChannel s).trackerBatches = s.trackerBatches := by
  unfold foregroundHighestPriorityActiveChannel
  cases getHighestPriorityActiveChannel s with
  | none => rfl
  | some c => exact setChannelFocus_trackerBatches s c.name _

theorem clearFold_trackerBatches (L : List String) : ∀ u : FMState,
    (L.foldl (fun st m => setChannelFocus st m FocusState.NONE) u).trackerBatches =
      u.trackerBatches := by
  induction L with
  | nil => intro u; rfl
  | cons x rest ih =>
    intro u
    simp only [List.foldl_cons]
    rw [ih (setChannelFocus u x FocusState.NONE), setChannelFocus_trackerBatches]

theorem notify_ext {s X : FMState} (hX : X.trackerBatches = s.trackerBatches) :
    (notifyActivityTracker X).activityUpdates = [] ∧
    ∃ tail, (notifyActivityTracker X).trackerBatches = s.trackerBatches ++ tail := by
  refine ⟨rfl, ?_⟩
  unfold notifyActivityTracker
  dsimp only
  split
  · exact ⟨[X.activityUpdates], by rw [hX]⟩
  · exact ⟨[], by simp [hX]⟩

/-- C10 counterexample: a release task that fails its ownership guard
returns before `notifyActivityTracker` — it neither clears nor flushes the
pending batch (and delivers nothing to the configured tracker), refuting
"every queued arbitration task ends by clearing the pending activity-record
batch".  The second conjunct shows the missing flush on a reachable state:
a freshly constructed manager with a tracker processes a failed release
without ever calling the tracker (no empty batch is delivered). -/
theorem C10_counterexample :
    ((runTask
      { channels := [⟨"A", 1, FocusState.NONE, "", none⟩],
        activeNames := [],
        activityUpdates := [⟨"A", FocusState.FOREGROUND, "x"⟩],
        notifications := [], trackerBatches := [], hasTracker := true }
      (Task.release "A" 5)).activityUpdates =
        [⟨"A", FocusState.FOREGROUND, "x"⟩]) ∧
    (runTask (mkFocusManager [⟨"A", 1⟩] true) (Task.release "A" 5)).trackerBatches
      = [] := by
  constructor
  · decide
  · decide

/-- C10 (amended): a queued task that completes its operation ends by
flushing the batch to the tracker (when configured) and clearing it, while a
guard-failing task leaves the batch untouched and delivers nothing; since
guard-failing tasks also produce no records, a batch that is empty when a
task starts is empty when it ends — so every batch the tracker receives
consists exactly of the records of the operation that flushed it, never
leftovers — and the tracker-batch log only ever grows. -/
theorem C10_batch_amended (s : FMState) (t : Task)
    (h : s.activityUpdates = []) :
    (runTask s t).activityUpdates = [] ∧
    ∃ tail, (runTask s t).trackerBatches = s.trackerBatches ++ tail := by
  cases t with
  | acquire n obs iface =>
    show (acquireChannelHelper s n obs iface).activityUpdates = [] ∧
      ∃ tail, (acquireChannelHelper s n obs iface).trackerBatches =
        s.trackerBatches ++ tail
    unfold acquireChannelHelper
    dsimp only
    have h3 : (setChannelObserver (insertActive
        (setChannelInterface (setChannelFocus s n FocusState.NONE) n iface) n) n
        (some obs)).trackerBatches = s.trackerBatches := by
      show (insertActive
        (setChannelInterface (setChannelFocus s n FocusState.NONE) n iface) n).trackerBatches = _
      rw [insertActive_trackerBatches]
      exact setChannelFocus_trackerBatches s n _
    cases hfg : getHighestPriorityActiveChannel (setChannelFocus s n FocusState.NONE) with
    | none =>
      exact notify_ext (by rw [setChannelFocus_trackerBatches]; exact h3)
    | some f =>
      dsimp only
      split
      · exact notify_ext (by rw [setChannelFocus_trackerBatches]; exact h3)
      · split
        · exact notify_ext (by
            rw [setChannelFocus_trackerBatches, setChannelFocus_trackerBatches]
            exact h3)
        · exact notify_ext (by rw [setChannelFocus_trackerBatches]; exact h3)
  | release n obs =>
    show ((releaseChannelHelper s n obs).1).activityUpdates = [] ∧
      ∃ tail, ((releaseChannelHelper s n obs).1).trackerBatches =
        s.trackerBatches ++ tail
    unfold releaseChannelHelper
    cases hf : findChannel s.channels n with
    | none => exact ⟨h, [], by simp⟩
    | some c =>
      dsimp only
      split
      · split
        · apply notify_ext
          rw [foregroundHighest_trackerBatches, setChannelFocus_trackerBatches]
          rfl
        · apply notify_ext
          rw [setChannelFocus_trackerBatches]
          rfl
      · exact ⟨h, [], by simp⟩
  | stopForeground n iface =>
    show (stopForegroundActivityHelper s n iface).activityUpdates = [] ∧
      ∃ tail, (stopForegroundActivityHelper s n iface).trackerBatches =
        s.trackerBatches ++ tail
    unfold stopForegroundActivityHelper
    cases hf : findChannel s.channels n with
    | none => exact ⟨h, [], by simp⟩
    | some c =>
      dsimp only
      split
      · exact ⟨h, [], by simp⟩
      · split
        · exact ⟨h, [], by simp⟩
        · apply notify_ext
          rw [foregroundHighest_trackerBatches]
          show (setChannelFocus s n FocusState.NONE).trackerBatches = _
          rw [setChannelFocus_trackerBatches]
  | stopAll pairs =>
    show (stopAllActivitiesHelper s pairs).activityUpdates = [] ∧
      ∃ tail, (stopAllActivitiesHelper s pairs).trackerBatches =
        s.trackerBatches ++ tail
    unfold stopAllActivitiesHelper
    dsimp only
    apply notify_ext
    rw [foregroundHighest_trackerBatches, clearFold_trackerBatches]
    exact (scanFold_facts pairs s []).2.2.2.1

theorem C10_batch_amended_witness :
    (runTask (mkFocusManager [⟨"A", 1⟩] true) (Task.acquire "A" 5 "i")).activityUpdates
      = [] :=
  (C10_batch_amended (mkFocusManager [⟨"A", 1⟩] true) (Task.acquire "A" 5 "i")
    (by decide)).1

end AFML

namespace AFML

theorem activeChans_congr {chs : List Channel} {act1 act2 : List String}
    (h : ∀ m, m ∈ act1 ↔ m ∈ act2) : activeChans chs act1 = activeChans chs act2 := by
  unfold activeChans
  apply List.filter_congr
  intro c _
  simp only [decide_eq_decide]
  exact h c.name

/-- Two invariant states with the same channel skeleton (names and
priorities) and the same active-set membership give every channel the same
focus state: under I2/I3 the focus states are a function of the active set. -/
theorem inv_focus_determined {s t : FMState} (hs : Inv s) (ht : Inv t)
    (hshape : ChanShape s t) (hact : ∀ m, m ∈ t.activeNames ↔ m ∈ s.activeNames) :
    ∀ m, focusOf t m = focusOf s m := by
  intro m
  unfold focusOf
  obtain ⟨g, hg1, hg2, hgc⟩ := hshape
  have hfind : findChannel t.channels m = (findChannel s.channels m).map g := by
    rw [hgc]
    exact findChannel_map g hg1 _ m
  cases hfm : findChannel s.channels m with
  | none => rw [hfind, hfm]; rfl
  | some c =>
    rw [hfind, hfm]
    show some ((g c).focusState) = some c.focusState
    have hcs : c ∈ s.channels := findChannel_mem hfm
    have hgt : g c ∈ t.channels := by
      rw [hgc]
      exact List.mem_map.mpr ⟨c, hcs, rfl⟩
    have h1 := hs.2.2.2 c hcs
    have h2 := ht.2.2.2 (g c) hgt
    unfold focusOk at h1 h2
    simp only [hg1] at h2
    have hHnames : (getHighestPriorityActiveChannel t).map Channel.name =
        (getHighestPriorityActiveChannel s).map Channel.name := by
      have hac : activeChans t.channels t.activeNames =
          (activeChans s.channels s.activeNames).map g := by
        have hcg : activeChans s.channels t.activeNames =
            activeChans s.channels s.activeNames := activeChans_congr hact
        rw [hgc, activeChans_map g hg1, hcg]
      unfold getHighestPriorityActiveChannel
      rw [hac, minPrio_map g hg2]
      cases minPrio (activeChans s.channels s.activeNames) <;> simp [hg1]
    have hiffg : isChannelForegrounded t c.name ↔ isChannelForegrounded s c.name := by
      unfold isChannelForegrounded
      rw [hHnames]
    by_cases hac1 : c.name ∈ s.activeNames
    · rw [if_pos hac1] at h1
      rw [if_pos ((hact c.name).mpr hac1)] at h2
      by_cases hfg : isChannelForegrounded s c.name
      · rw [if_pos hfg] at h1
        rw [if_pos (hiffg.mpr hfg)] at h2
        rw [h1, h2]
      · rw [if_neg hfg] at h1
        rw [if_neg (fun hcon => hfg (hiffg.mp hcon))] at h2
        rw [h1, h2]
    · rw [if_neg hac1] at h1
      rw [if_neg (fun hcon => hac1 ((hact c.name).mp hcon))] at h2
      rw [h1, h2]

/-- Every task only rewrites channels pointwise, preserving their names and
priorities. -/
theorem chanShape_runTask (s : FMState) (t : Task) : ChanShape s (runTask s t) := by
  cases t with
  | acquire n obs iface =>
    show ChanShape s (acquireChannelHelper s n obs iface)
    unfold acquireChannelHelper
    dsimp only
    have hmid := acquireMid_chanShape s n obs iface
    cases hfg : getHighestPriorityActiveChannel (setChannelFocus s n FocusState.NONE) with
    | none => exact (hmid.trans (chanShape_setChannelFocus _ _ _)).trans (ChanShape.refl' rfl)
    | some f =>
      dsimp only
      split
      · exact (hmid.trans (chanShape_setChannelFocus _ _ _)).trans (ChanShape.refl' rfl)
      · split
        · exact ((hmid.trans (chanShape_setChannelFocus _ _ _)).trans
            (chanShape_setChannelFocus _ _ _)).trans (ChanShape.refl' rfl)
        · exact (hmid.trans (chanShape_setChannelFocus _ _ _)).trans (ChanShape.refl' rfl)
  | release n obs =>
    show ChanShape s ((releaseChannelHelper s n obs).1)
    unfold releaseChannelHelper
    cases hfind : findChannel s.channels n with
    | none => exact ChanShape.refl' rfl
    | some c =>
      dsimp only
      split
      · split
        · exact (((ChanShape.refl' rfl).trans
            (chanShape_setChannelFocus (eraseActive s n) n FocusState.NONE)).trans
            (chanShape_foregroundHighest _)).trans (ChanShape.refl' rfl)
        · exact ((ChanShape.refl' rfl).trans
            (chanShape_setChannelFocus (eraseActive s n) n FocusState.NONE)).trans
            (ChanShape.refl' rfl)
      · exact ChanShape.refl' rfl
  | stopForeground n iface =>
    show ChanShape s (stopForegroundActivityHelper s n iface)
    unfold stopForegroundActivityHelper
    cases hfind : findChannel s.channels n with
    | none => exact ChanShape.refl' rfl
    | some c =>
      dsimp only
      split
      · exact ChanShape.refl' rfl
      · split
        · exact ChanShape.refl' rfl
        · exact (((chanShape_setChannelFocus s n FocusState.NONE).trans
            (ChanShape.refl' rfl)).trans
            (chanShape_foregroundHighest
              (eraseActive (setChannelFocus s n FocusState.NONE) n))).trans
            (ChanShape.refl' rfl)
  | stopAll pairs =>
    show ChanShape s (stopAllActivitiesHelper s pairs)
    unfold stopAllActivitiesHelper
    dsimp only
    exact (((ChanShape.refl' (scanFold_facts pairs s []).1).trans
      (clearFold_facts _ _).1).trans
      (chanShape_foregroundHighest _)).trans (ChanShape.refl' rfl)

end AFML

namespace AFML

/-- The acquire task leaves its target with the new observer attached and a
focus state other than NONE (FOREGROUND or BACKGROUND, depending on the
branch taken). -/
theorem acquire_target_state {s : FMState} {A : String} {a : Channel}
    (hf : findChannel s.channels A = some a) (obs : Nat) (iface : String) :
    ∃ cN, findChannel (acquireChannelHelper s A obs iface).channels A = some cN ∧
      cN.observer = some obs ∧ cN.focusState ≠ FocusState.NONE := by
  have hmidself := acquireMid_lookup_self hf obs iface
  unfold acquireChannelHelper
  dsimp only
  cases hfg : getHighestPriorityActiveChannel (setChannelFocus s A FocusState.NONE) with
  | none =>
    refine ⟨_, findChannel_setChannelFocus_self hmidself, ?_, ?_⟩
    · rw [Channel.setFocus_keep_observer (by simp)]
    · rw [Channel.setFocus_fst_focusState]
      simp
  | some f =>
    dsimp only
    by_cases hfn : f.name = A
    · rw [if_pos hfn]
      refine ⟨_, findChannel_setChannelFocus_self hmidself, ?_, ?_⟩
      · rw [Channel.setFocus_keep_observer (by simp)]
      · rw [Channel.setFocus_fst_focusState]
        simp
    · rw [if_neg hfn]
      by_cases hlt : priorityOf s A < f.priority
      · rw [if_pos hlt]
        have hmid2 : findChannel (setChannelFocus (setChannelObserver
            (insertActive (setChannelInterface (setChannelFocus s A FocusState.NONE) A iface) A)
            A (some obs)) f.name FocusState.BACKGROUND).channels A =
            some { (a.setFocus FocusState.NONE).1 with
                   interface := iface, observer := some obs } := by
          rw [findChannel_setChannelFocus_ne (fun hcon => hfn hcon.symm)]
          exact hmidself
        refine ⟨_, findChannel_setChannelFocus_self hmid2, ?_, ?_⟩
        · rw [Channel.setFocus_keep_observer (by simp)]
        · rw [Channel.setFocus_fst_focusState]
          simp
      · rw [if_neg hlt]
        refine ⟨_, findChannel_setChannelFocus_self hmidself, ?_, ?_⟩
        · rw [Channel.setFocus_keep_observer (by simp)]
        · rw [Channel.setFocus_fst_focusState]
          simp

/-- The acquire task appends its (previously inactive) target to the active
set, whichever resolution branch runs. -/
theorem acquire_activeNames (s : FMState) (A : String) (obs : Nat) (iface : String)
    (hA : A ∉ s.activeNames) :
    (acquireChannelHelper s A obs iface).activeNames = s.activeNames ++ [A] := by
  unfold acquireChannelHelper
  dsimp only
  have hin : (setChannelInterface (setChannelFocus s A FocusState.NONE) A iface).activeNames =
      s.activeNames := setChannelFocus_activeNames s A _
  have hS3 : (setChannelObserver (insertActive
      (setChannelInterface (setChannelFocus s A FocusState.NONE) A iface) A) A
      (some obs)).activeNames = s.activeNames ++ [A] := by
    show (insertActive
      (setChannelInterface (setChannelFocus s A FocusState.NONE) A iface) A).activeNames = _
    unfold insertActive
    split
    · rename_i hcon
      rw [hin] at hcon
      exact absurd hcon hA
    · show (setChannelInterface (setChannelFocus s A FocusState.NONE) A iface).activeNames
        ++ [A] = _
      rw [hin]
  cases hfg : getHighestPriorityActiveChannel (setChannelFocus s A FocusState.NONE) with
  | none =>
    show (setChannelFocus _ A FocusState.FOREGROUND).activeNames = _
    rw [setChannelFocus_activeNames]
    exact hS3
  | some f =>
    dsimp only
    by_cases hfn : f.name = A
    · rw [if_pos hfn]
      show (setChannelFocus _ A FocusState.FOREGROUND).activeNames = _
      rw [setChannelFocus_activeNames]
      exact hS3
    · rw [if_neg hfn]
      by_cases hlt : priorityOf s A < f.priority
      · rw [if_pos hlt]
        show (setChannelFocus (setChannelFocus _ f.name FocusState.BACKGROUND) A
          FocusState.FOREGROUND).activeNames = _
        rw [setChannelFocus_activeNames, setChannelFocus_activeNames]
        exact hS3
      · rw [if_neg hlt]
        show (setChannelFocus _ A FocusState.BACKGROUND).activeNames = _
        rw [setChannelFocus_activeNames]
        exact hS3

theorem filter_append_not_mem {l : List String} {A : String} (hA : A ∉ l) :
    (l ++ [A]).filter (fun m => m ≠ A) = l := by
  rw [List.filter_append]
  have h1 : l.filter (fun m => m ≠ A) = l := by
    apply List.filter_eq_self.mpr
    intro b hb
    simp only [ne_eq, decide_not, Bool.not_eq_true']
    exact decide_eq_false (fun hcon => hA (hcon ▸ hb))
  have h2 : ([A].filter (fun m => m ≠ A)) = [] := by simp
  rw [h1, h2, List.append_nil]

/-- C5: acquiring a previously inactive channel and then releasing it with
the same observer returns the arbitrator to its pre-acquire snapshot — the
active set is the original list and every channel carries its original
focus state. -/
theorem C5_roundtrip (s : FMState) (A : String) (obs : Nat) (iface : String)
    (a : Channel) (h : Inv s) (hf : findChannel s.channels A = some a)
    (hA : A ∉ s.activeNames) :
    (releaseChannelHelper (acquireChannelHelper s A obs iface) A obs).1.activeNames =
      s.activeNames ∧
    ∀ m, focusOf (releaseChannelHelper (acquireChannelHelper s A obs iface) A obs).1 m =
      focusOf s m := by
  obtain ⟨cN, hcN, hcNobs, hcNf⟩ := acquire_target_state hf obs iface
  have hown : cN.doesObserverOwnChannel obs := by
    unfold Channel.doesObserverOwnChannel
    rw [hcNobs]
  have hacqact := acquire_activeNames s A obs iface hA
  have hrel : (releaseChannelHelper (acquireChannelHelper s A obs iface) A obs).1 =
      notifyActivityTracker
        (if isChannelForegrounded (acquireChannelHelper s A obs iface) A then
          foregroundHighestPriorityActiveChannel
            (setChannelFocus (eraseActive (acquireChannelHelper s A obs iface) A) A
              FocusState.NONE)
        else
          setChannelFocus (eraseActive (acquireChannelHelper s A obs iface) A) A
            FocusState.NONE) := by
    unfold releaseChannelHelper
    rw [hcN]
    dsimp only
    rw [if_pos hown]
  have hfinact :
      (releaseChannelHelper (acquireChannelHelper s A obs iface) A obs).1.activeNames =
        s.activeNames := by
    rw [hrel]
    show (if _ then _ else _ : FMState).activeNames = _
    split
    · rw [foregroundHighest_activeNames, setChannelFocus_activeNames]
      show (acquireChannelHelper s A obs iface).activeNames.filter (fun m => m ≠ A) = _
      rw [hacqact]
      exact filter_append_not_mem hA
    · rw [setChannelFocus_activeNames]
      show (acquireChannelHelper s A obs iface).activeNames.filter (fun m => m ≠ A) = _
      rw [hacqact]
      exact filter_append_not_mem hA
  have hInvfin : Inv (releaseChannelHelper (acquireChannelHelper s A obs iface) A obs).1 :=
    inv_releaseChannelHelper (inv_acquireChannelHelper h hf)
  have hshape : ChanShape s
      (releaseChannelHelper (acquireChannelHelper s A obs iface) A obs).1 :=
    (chanShape_runTask s (Task.acquire A obs iface)).trans
      (chanShape_runTask (acquireChannelHelper s A obs iface) (Task.release A obs))
  refine ⟨hfinact, ?_⟩
  exact inv_focus_determined h hInvfin hshape (fun m => by rw [hfinact])

theorem C5_roundtrip_witness :
    (releaseChannelHelper (acquireChannelHelper
      (runTask (mkFocusManager [⟨"A", 1⟩, ⟨"B", 2⟩] true) (Task.acquire "B" 9 "ib"))
      "A" 7 "i") "A" 7).1.activeNames =
      (runTask (mkFocusManager [⟨"A", 1⟩, ⟨"B", 2⟩] true)
        (Task.acquire "B" 9 "ib")).activeNames :=
  (C5_roundtrip
    (runTask (mkFocusManager [⟨"A", 1⟩, ⟨"B", 2⟩] true) (Task.acquire "B" 9 "ib"))
    "A" 7 "i" ⟨"A", 1, FocusState.NONE, "", none⟩
    (by decide) (by decide) (by decide)).1

end AFML
